import Mathlib

/-!
Verification of the IHID→OMOP mapping/merge engine.

This file gives a shallow embedding of the two engine variants of the
repository — `scripts/optimized_ihid_etl.py` (class `OptimizedIHIDToOMOPETL`)
and `archive/enhanced_ihid_etl.py` (class `EnhancedIHIDETL`) — and proves or
refutes the specification's claims about them.

Python scalar cell values are modelled by the inductive type `Value`
(`None`, `int`, `float` as rationals, the pandas `NaN` marker, `str`).
Python dicts holding records are modelled as insertion-ordered association
lists (`List (String × Value)`); assignment `d[k] = v` is `setField`
(update-in-place of the first occurrence, append when missing), which is
exactly CPython dict semantics.  The engine state (`omop_data`,
`omop_lookup`) is a structure of total functions with `defaultdict`
defaults.  Exceptions inside a single rule application are reified as
`Option` (`none` = the Python exception that `_process_batch` catches).

External library behaviour that the engine calls is modelled faithfully
for the inputs decided by the claims and documented at each definition:
`float(...)` parsing, `pd.to_datetime(..., errors='coerce')` restricted to
ISO date strings, and CPython's run-local string hash (any fixed
deterministic function is a faithful model of within-run hashing).
-/

set_option autoImplicit false

namespace IhidOmop

/-- A Python scalar cell value as it reaches the engine: `None`, an `int`,
a finite `float` (modelled as a rational), the pandas `NaN` marker, or a
`str`. -/
inductive Value where
  | noneV : Value
  | intV : Int → Value
  | floatV : Rat → Value
  | nanV : Value
  | strV : String → Value
  deriving DecidableEq, Repr

/-- Python truthiness of a cell value (`bool(v)`): `None`, `0`, `0.0` and
`""` are falsy; `NaN` is truthy. -/
def Value.truthy : Value → Bool
  | .noneV => false
  | .intV n => n != 0
  | .floatV q => q != 0
  | .nanV => true
  | .strV s => s != ""

/-- Python's short-circuit `a or b` on cell values: `a` when truthy, else `b`. -/
def pyOr (a b : Value) : Value := if a.truthy then a else b

/-- Decimal rendering of a float value, modelling Python `str` on the
floats that occur as identifiers (integral floats render as `n.0`). -/
def floatRepr (q : Rat) : String :=
  if q.den = 1 then toString q.num ++ ".0" else toString q.num ++ "/" ++ toString q.den

/-- Python `str(v)` for a cell value, as used in f-string interpolation of
identifier values. -/
def Value.pyStr : Value → String
  | .noneV => "None"
  | .intV n => toString n
  | .floatV q => floatRepr q
  | .nanV => "nan"
  | .strV s => s

/-- Rendering of a cell value inside `str(dict)`; a model of Python `repr`
(string quoting omitted — the rendering only feeds the modelled hash). -/
def Value.pyRepr : Value → String
  | .noneV => "None"
  | .intV n => toString n
  | .floatV q => floatRepr q
  | .nanV => "nan"
  | .strV s => s

/-- A source or target record: a Python dict as an insertion-ordered
association list from field name to value. -/
abbrev Record := List (String × Value)

/-- A source record (same representation as a target record). -/
abbrev SourceRecord := Record

/-- First value bound to field `f`, if any (`k in d` / `d[k]` lookup). -/
def getField? (r : Record) (f : String) : Option Value :=
  match r with
  | [] => none
  | (g, w) :: rest => if g = f then some w else getField? rest f

/-- Python `d.get(k)`: the bound value, or `None` when the key is absent. -/
def getVal (r : Record) (f : String) : Value := (getField? r f).getD .noneV

/-- Python `k in d`. -/
def hasField (r : Record) (f : String) : Bool := (getField? r f).isSome

/-- Python `d[k] = v`: update the first binding of `k` in place, or append
a new binding at the end. -/
def setField : Record → String → Value → Record
  | [], f, v => [(f, v)]
  | (g, w) :: rest, f, v =>
    if g = f then (g, v) :: rest else (g, w) :: setField rest f v

/-- Apply a list of field writes in order (`d[f] = v` for each pair). -/
def setFields (r : Record) (ws : List (String × Value)) : Record :=
  ws.foldl (fun acc p => setField acc p.1 p.2) r

/-- Python `d.pop(k, None)`: drop the first binding of `k`, if any. -/
def removeFieldFirst : Record → String → Record
  | [], _ => []
  | (g, w) :: rest, f => if g = f then rest else (g, w) :: removeFieldFirst rest f

/-- Whether `pat` occurs as a contiguous sublist of `l`. -/
def listHasInfix (pat : List Char) : List Char → Bool
  | [] => pat.isEmpty
  | c :: rest => pat.isPrefixOf (c :: rest) || listHasInfix pat rest

/-- Substring test (Python `pat in s`). -/
def strContains (s pat : String) : Bool := listHasInfix pat.toList s.toList

/-- Numeric value of a digit list. -/
def natOfDigits (cs : List Char) : Nat :=
  cs.foldl (fun n c => n * 10 + (c.toNat - 48)) 0

/-- Drop leading and trailing whitespace from a character list. -/
def trimChars (cs : List Char) : List Char :=
  ((cs.dropWhile Char.isWhitespace).reverse.dropWhile Char.isWhitespace).reverse

/-- Python `s.strip()`. -/
def pyStrip (s : String) : String := String.mk (trimChars s.toList)

/-- Python `s.lower()` (list-based so that it evaluates by reduction). -/
def strToLower (s : String) : String := String.mk (s.toList.map Char.toLower)

/-- Python `s.endswith(pat)`. -/
def strEndsWith (s pat : String) : Bool := pat.toList.isSuffixOf s.toList

/-- Concatenate rendered fields with a comma separator. -/
def joinCommaSep : List String → String
  | [] => ""
  | [x] => x
  | x :: rest => x ++ ", " ++ joinCommaSep rest

/-- Model of Python `float(s)` on the decimal numerals the engine meets:
optional surrounding whitespace and sign, digits with an optional single
decimal point; anything else (e.g. `"P001"`, `""`) raises `ValueError`,
modelled as `none`.  (Exponent and `inf`/`nan` spellings are outside the
model.) -/
def parsePyFloat (s : String) : Option Rat :=
  let cs := (pyStrip s).toList
  let signed : Bool × List Char :=
    match cs with
    | '-' :: rest => (true, rest)
    | '+' :: rest => (false, rest)
    | rest => (false, rest)
  let body := signed.2
  let ip := body.takeWhile Char.isDigit
  let rest := body.dropWhile Char.isDigit
  let mag : Option Rat :=
    match rest with
    | [] => if ip.isEmpty then none else some ((natOfDigits ip : Int) : Rat)
    | '.' :: frac =>
      if frac.all Char.isDigit && !(ip.isEmpty && frac.isEmpty) then
        some ((natOfDigits ip : Rat) + (natOfDigits frac : Rat) / ((10 : Rat) ^ frac.length))
      else none
    | _ => none
  mag.map (fun q => if signed.1 then -q else q)

/-- Python `int(...)` on a float: truncation toward zero. -/
def ratTruncToInt (q : Rat) : Int :=
  if q < 0 then -(((-q).num) / (((-q).den : Int))) else q.num / (q.den : Int)

/-- Model of `pd.to_datetime(s, errors='coerce').strftime('%Y-%m-%d')` on
the ISO-style inputs the claims decide: `YYYY-MM-DD`, optionally followed
by a space and a time-of-day, normalises to the date part; other strings
coerce to `NaT`, modelled as `none`. -/
def parsePandasDate (s : String) : Option String :=
  match s.toList with
  | y1 :: y2 :: y3 :: y4 :: '-' :: m1 :: m2 :: '-' :: d1 :: d2 :: rest =>
    if [y1, y2, y3, y4, m1, m2, d1, d2].all Char.isDigit &&
        (rest.isEmpty || rest.head? = some ' ') then
      some (String.mk [y1, y2, y3, y4, '-', m1, m2, '-', d1, d2])
    else none
  | _ => none

/-- `_convert_to_date` of `OptimizedIHIDToOMOPETL`: falsy or NaN input
yields `None`; otherwise parse permissively and normalise to
`YYYY-MM-DD`, unparsable input yields `None`.  Non-string input is not
parsed in this model (the pipeline feeds strings). -/
def convertToDate (v : Value) : Option Value :=
  if !v.truthy || v = .nanV then none
  else
    match v with
    | .strV s => (parsePandasDate s).map .strV
    | _ => none

/-- The identifier-field naming test of `_convert_value`:
`'_id' in field_lower or field_lower.endswith('_id')`. -/
def isIdField (fieldLower : String) : Bool :=
  strContains fieldLower "_id" || strEndsWith fieldLower "_id"

/-- Python `float(value)` for the values reaching the numeric branch. -/
def pyFloatOf : Value → Option Rat
  | .intV n => some ((n : Rat))
  | .floatV q => some q
  | .strV s => parsePyFloat s
  | .nanV => none
  | .noneV => none

/-- `_convert_value` of `OptimizedIHIDToOMOPETL`: `None`/NaN yield `None`;
identifier-named fields take `int(float(value))` with failures yielding
`None`; date-named fields go through the date parser; amount/value/quantity
fields take `float(value)`; strings are trimmed (empty → `None`); other
values pass through unchanged. -/
def convertValue (v : Value) (omopField : String) : Option Value :=
  if v = .noneV || v = .nanV then none
  else
    let fieldLower := strToLower omopField
    if isIdField fieldLower then
      match v with
      | .strV s =>
        if pyStrip s = "" then none
        else (parsePyFloat s).map (fun q => .intV (ratTruncToInt q))
      | .intV n => some (.intV n)
      | .floatV q => some (.intV (ratTruncToInt q))
      | _ => none
    else if strContains fieldLower "date" || strContains fieldLower "datetime" then
      convertToDate v
    else if strContains fieldLower "amount" || strContains fieldLower "value" ||
        strContains fieldLower "quantity" then
      (pyFloatOf v).map .floatV
    else
      match v with
      | .strV s => if pyStrip s = "" then none else some (.strV (pyStrip s))
      | _ => some v

/-- Collapse runs of consecutive underscores to a single underscore — the
fixpoint of the `while '__' in clean_key` replacement loop. -/
def collapseUnderscores : List Char → List Char
  | [] => []
  | [c] => [c]
  | c :: d :: rest =>
    if c = '_' && d = '_' then collapseUnderscores (d :: rest)
    else c :: collapseUnderscores (d :: rest)

/-- Field-name standardisation of `_standardize_field_names`: lower-case,
strip, map space/hyphen/dot to underscore, collapse repeated underscores. -/
def cleanKey (k : String) : String :=
  let cs := (pyStrip (strToLower k)).toList
  let cs := cs.map (fun c => if c = ' ' || c = '-' || c = '.' then '_' else c)
  String.mk (collapseUnderscores cs)

/-- `_standardize_field_names`: rebuild the record with cleaned keys
(duplicates collapse with dict-assignment semantics). -/
def standardizeFieldNames (r : SourceRecord) : SourceRecord :=
  r.foldl (fun acc p => setField acc (cleanKey p.1) p.2) []

/-- A flat mapping rule as produced by `load_mapping` (the `omop_*`
entries come from `dict.get` and may be `None`). -/
structure Rule where
  source_table : String
  ihid_field : String
  omop_table : Option String
  omop_field : Option String
  mapping_type : Option String
  deriving DecidableEq, Repr

/-- `_get_applicable_mappings`: rules whose source table matches
case-insensitively (an empty source table matches everything, as the
falsy-string guard skips the comparison) and whose source field is a key
of the standardized record. -/
def getApplicableMappings (mapping : List Rule) (sourceTable : String)
    (r : SourceRecord) : List Rule :=
  mapping.filter (fun m =>
    (m.source_table == "" || strToLower m.source_table == strToLower sourceTable) &&
    hasField r m.ihid_field)

/-- The subject identifier of a record:
`source_record.get('mrn') or source_record.get('medical_record_number')`. -/
def subjectId (r : SourceRecord) : Value :=
  pyOr (getVal r "mrn") (getVal r "medical_record_number")

/-- The encounter identifier of a record:
`source_record.get('encntr_num') or source_record.get('encounter_number')`. -/
def encounterId (r : SourceRecord) : Value :=
  pyOr (getVal r "encntr_num") (getVal r "encounter_number")

/-- The event identifier of a record:
`source_record.get('event_id') or source_record.get('clinical_event_id')`. -/
def eventIdOf (r : SourceRecord) : Value :=
  pyOr (getVal r "event_id") (getVal r "clinical_event_id")

/-- `str(dict)` as fed to `hash` — a model rendering of the record's
content (used only as hash input). -/
def recordStr (r : SourceRecord) : String :=
  joinCommaSep (r.map (fun p => p.1 ++ ": " ++ p.2.pyRepr))

/-- Model of CPython's run-local string hash: any fixed deterministic
function of the rendered content is a faithful within-run model. -/
def pyHashString (s : String) : Int :=
  s.toList.foldl (fun h c => (h * 1000003 + (c.toNat : Int)) % 2305843009213693951) 0

/-- `hash(str(source_record))`. -/
def hashRecord (r : SourceRecord) : Int := pyHashString (recordStr r)

/-- `_generate_record_id` of `OptimizedIHIDToOMOPETL`: the run-local
record key for a target table, by table kind and available identifiers. -/
def generateRecordId (r : SourceRecord) (omopTable : String) : String :=
  let mrn := subjectId r
  let encntrNum := encounterId r
  let eventId := eventIdOf r
  let tl := strToLower omopTable
  if tl = "person" then
    if mrn.truthy then "person_" ++ mrn.pyStr
    else "person_unknown_" ++ toString (hashRecord r)
  else if tl = "visit_occurrence" then
    if encntrNum.truthy then "visit_" ++ encntrNum.pyStr
    else "visit_unknown_" ++ toString (hashRecord r)
  else if tl = "condition_occurrence" || tl = "procedure_occurrence" ||
      tl = "drug_exposure" then
    let baseId :=
      if mrn.truthy && encntrNum.truthy then mrn.pyStr ++ "_" ++ encntrNum.pyStr
      else toString (hashRecord r)
    tl ++ "_" ++ baseId
  else if eventId.truthy then tl ++ "_" ++ eventId.pyStr
  else tl ++ "_" ++ toString (hashRecord r)

/-- The fixed event-tables allow-list of `_add_standard_identifiers`. -/
def eventTables : List String :=
  ["condition_occurrence", "procedure_occurrence", "drug_exposure",
   "measurement", "observation", "device_exposure", "specimen"]

/-- `_add_standard_identifiers` (identical in both engine variants up to
the identifier lookups): unconditionally assign `person_id` for non-person
tables, `visit_occurrence_id` for event tables, and the table-specific
required identifiers, whenever the corresponding source identifier is
truthy. -/
def addStandardIdentifiers (omopRecord : Record) (r : SourceRecord)
    (omopTable : String) : Record :=
  let mrn := subjectId r
  let encntrNum := encounterId r
  let tl := strToLower omopTable
  let rec1 := if tl ≠ "person" && mrn.truthy
    then setField omopRecord "person_id" mrn else omopRecord
  let rec2 := if tl ∈ eventTables && encntrNum.truthy
    then setField rec1 "visit_occurrence_id" encntrNum else rec1
  if tl = "person" && mrn.truthy then setField rec2 "person_id" mrn
  else if tl = "visit_occurrence" && encntrNum.truthy then
    let rec3 := setField rec2 "visit_occurrence_id" encntrNum
    if mrn.truthy then setField rec3 "person_id" mrn else rec3
  else rec2

/-- The merge-engine working state: `omop_data` (a `defaultdict(list)` of
per-table record sequences) and `omop_lookup` (per-table record-key →
position index). -/
structure EtlState where
  data : String → List Record
  lookup : String → String → Option Nat

/-- The fresh engine state. -/
def EtlState.empty : EtlState := ⟨fun _ => [], fun _ _ => none⟩

/-- Set a record's field at a list position; `none` models the
`IndexError` of an out-of-range index. -/
def updateRecordAt (l : List Record) (i : Nat) (fld : String) (v : Value) :
    Option (List Record) :=
  match l.get? i with
  | none => none
  | some r => some (l.set i (setField r fld v))

/-- `_apply_mapping_optimized`: fetch the source value (skip on
`None`/`''`/NaN), convert it (skip on `None`), resolve the record key, and
update the indexed record or create, inject identifiers and index a new
one.  `none` models an exception escaping the call (absent
`omop_field`/`omop_table`, out-of-range index), which `_process_batch`
catches. -/
def applyMappingOpt (m : Rule) (r : SourceRecord) (st : EtlState) :
    Option EtlState :=
  let value := getVal r m.ihid_field
  if value = .noneV || value = .strV "" || value = .nanV then some st
  else
    match m.omop_field with
    | none => none
    | some omopField =>
      match convertValue value omopField with
      | none => some st
      | some convertedValue =>
        match m.omop_table with
        | none => none
        | some omopTable =>
          let recordId := generateRecordId r omopTable
          match st.lookup omopTable recordId with
          | some recordIndex =>
            match updateRecordAt (st.data omopTable) recordIndex omopField
                convertedValue with
            | none => none
            | some newList =>
              some { st with
                data := fun t => if t = omopTable then newList else st.data t }
          | none =>
            let newRecord := setField (setField [] "_record_id" (.strV recordId))
              omopField convertedValue
            let newRecord := addStandardIdentifiers newRecord r omopTable
            some { st with
              data := fun t => if t = omopTable
                then st.data omopTable ++ [newRecord] else st.data t,
              lookup := fun t k => if t = omopTable ∧ k = recordId
                then some (st.data omopTable).length else st.lookup t k }

/-- One rule application as seen from `_process_batch`: exceptions are
caught and leave the state unchanged. -/
def stepRule (r : SourceRecord) (st : EtlState) (m : Rule) : EtlState :=
  (applyMappingOpt m r st).getD st

/-- The per-record body of `_process_batch`: standardize the field names,
select the applicable rules, and apply them in order. -/
def processRecord (mapping : List Rule) (sourceTable : String)
    (st : EtlState) (srcRec : SourceRecord) : EtlState :=
  let sr := standardizeFieldNames srcRec
  let applicable := getApplicableMappings mapping sourceTable sr
  applicable.foldl (stepRule sr) st

/-- `_post_process_omop_data` of `OptimizedIHIDToOMOPETL`: strip the
internal `_record_id` from every record and clear the lookup tables. -/
def postProcessOmopData (st : EtlState) : EtlState :=
  { data := fun t => (st.data t).map (fun r => removeFieldFirst r "_record_id"),
    lookup := fun _ _ => none }

/-! ### The enhanced (archive) engine variant -/

/-- One target of a field in the enhanced engine's nested mapping
(`mapping_info['omop_table']`, `mapping_info['omop_field']`). -/
structure EnhMappingInfo where
  omop_table : String
  omop_field : String
  deriving DecidableEq, Repr

/-- The enhanced engine's nested mapping:
source table → source field → list of targets (dict iteration order). -/
abbrev EnhMapping := List (String × List (String × List EnhMappingInfo))

/-- A loaded CSV source table: its column list and its rows (a row carries
a value — possibly NaN — for every column). -/
structure CsvTable where
  cols : List String
  rows : List SourceRecord
  deriving Repr

/-- Python `==` on the cell values of this model: numeric values compare
by value across `int`/`float`, `NaN` compares unequal to everything
(itself included), other kinds compare structurally. -/
def Value.pyEq : Value → Value → Bool
  | .noneV, .noneV => true
  | .intV a, .intV b => a == b
  | .intV a, .floatV b => (a : Rat) == b
  | .floatV a, .intV b => a == ((b : Rat))
  | .floatV a, .floatV b => a == b
  | .strV a, .strV b => a == b
  | _, _ => false

/-- `record_dict = {k: (v if pd.notna(v) else None) ...}`: NaN cells
become `None`. -/
def notnaNormalize (r : SourceRecord) : SourceRecord :=
  r.map (fun p => (p.1, if p.2 = Value.nanV then Value.noneV else p.2))

/-- `_generate_record_id` of `EnhancedIHIDETL`: like the optimized one but
reading only the literal `mrn`/`encntr_num`/`event_id`/`clinical_event_id`
fields. -/
def enhGenerateRecordId (r : SourceRecord) (omopTable : String) : String :=
  let mrn := getVal r "mrn"
  let encntrNum := getVal r "encntr_num"
  let eventId := getVal r "event_id"
  let clinicalEventId := getVal r "clinical_event_id"
  let tl := strToLower omopTable
  if tl = "person" then
    if mrn.truthy then "person_" ++ mrn.pyStr
    else "person_unknown_" ++ toString (hashRecord r)
  else if tl = "visit_occurrence" then
    if encntrNum.truthy then "visit_" ++ encntrNum.pyStr
    else "visit_unknown_" ++ toString (hashRecord r)
  else if tl = "condition_occurrence" || tl = "procedure_occurrence" ||
      tl = "drug_exposure" then
    let baseId :=
      if mrn.truthy && encntrNum.truthy then mrn.pyStr ++ "_" ++ encntrNum.pyStr
      else toString (hashRecord r)
    tl ++ "_" ++ baseId
  else if eventId.truthy || clinicalEventId.truthy then
    tl ++ "_" ++ (pyOr eventId clinicalEventId).pyStr
  else tl ++ "_" ++ toString (hashRecord r)

/-- `_add_standard_identifiers` of `EnhancedIHIDETL` (reads the literal
`mrn`/`encntr_num` fields). -/
def enhAddStandardIdentifiers (omopRecord : Record) (r : SourceRecord)
    (omopTable : String) : Record :=
  let mrn := getVal r "mrn"
  let encntrNum := getVal r "encntr_num"
  let tl := strToLower omopTable
  let rec1 := if tl ≠ "person" && mrn.truthy
    then setField omopRecord "person_id" mrn else omopRecord
  let rec2 := if tl ∈ eventTables && encntrNum.truthy
    then setField rec1 "visit_occurrence_id" encntrNum else rec1
  if tl = "person" && mrn.truthy then setField rec2 "person_id" mrn
  else if tl = "visit_occurrence" && encntrNum.truthy then
    let rec3 := setField rec2 "visit_occurrence_id" encntrNum
    if mrn.truthy then setField rec3 "person_id" mrn else rec3
  else rec2

/-- The enhanced engine's working state: `omop_data` only (it keeps no
lookup index and scans linearly for a record key). -/
abbrev EnhState := String → List Record

/-- Scan a table for the first record whose `_record_id` equals the key
and overwrite the field there (the linear search of `_add_omop_record`). -/
def updateFound (l : List Record) (rid : String) (f : String) (v : Value) :
    Option (List Record) :=
  match l with
  | [] => none
  | r :: rest =>
    if (getVal r "_record_id").pyEq (.strV rid) then some (setField r f v :: rest)
    else (updateFound rest rid f v).map (fun l2 => r :: l2)

/-- `_add_omop_record` of `EnhancedIHIDETL`: find the record by key and
overwrite the field, or create a new record with the raw value and inject
standard identifiers. -/
def addOmopRecord (st : EnhState) (omopTable omopField : String) (value : Value)
    (srcRec : SourceRecord) : EnhState :=
  let recordId := enhGenerateRecordId srcRec omopTable
  match updateFound (st omopTable) recordId omopField value with
  | some newList => fun t => if t = omopTable then newList else st t
  | none =>
    let newRecord := setField (setField [] "_record_id" (.strV recordId))
      omopField value
    let newRecord := enhAddStandardIdentifiers newRecord srcRec omopTable
    fun t => if t = omopTable then st omopTable ++ [newRecord] else st t

/-- The per-record body of `transform_to_omop` in the enhanced engine:
each mapped source field that is present and non-`None` routes its raw
value to every target. -/
def enhApplyRecord (tableMapping : List (String × List EnhMappingInfo))
    (st : EnhState) (recDict : SourceRecord) : EnhState :=
  tableMapping.foldl (fun st1 fm =>
    if !hasField recDict fm.1 || getVal recDict fm.1 = Value.noneV then st1
    else fm.2.foldl (fun st2 mi =>
      addOmopRecord st2 mi.omop_table mi.omop_field (getVal recDict fm.1) recDict)
      st1) st

/-- First value bound to a string key in an association list. -/
def lookupAssoc {α : Type} (l : List (String × α)) (k : String) : Option α :=
  (l.find? (fun p => p.1 == k)).map (fun p => p.2)

/-- `transform_to_omop` of `EnhancedIHIDETL` over all loaded CSV tables
(tables without a mapping are skipped). -/
def enhTransformTables (mapping : EnhMapping) (csvData : List (String × CsvTable))
    (st : EnhState) : EnhState :=
  csvData.foldl (fun st1 tbl =>
    match lookupAssoc mapping tbl.1 with
    | none => st1
    | some tm => tbl.2.rows.foldl
        (fun st2 row => enhApplyRecord tm st2 (notnaNormalize row)) st1) st

/-- The `person_id` values present on a table's records. -/
def personIdsOf (l : List Record) : List Value :=
  l.filterMap (fun r => getField? r "person_id")

/-- Python set membership by `==`. -/
def memPy (v : Value) (vs : List Value) : Bool := vs.any (fun w => w.pyEq v)

/-- Insertion-ordered model of accumulating values into a Python set. -/
def dedupPy (vs : List Value) : List Value :=
  vs.foldl (fun acc v => if memPy v acc then acc else acc ++ [v]) []

/-- Whether a cell survives `dropna` / `pd.notna`. -/
def notnaV (v : Value) : Bool := v ≠ Value.nanV && v ≠ Value.noneV

/-- All distinct `mrn` values across the loaded CSV tables
(`df['mrn'].dropna().unique()` accumulated into a set, in an
insertion-ordered model of the set). -/
def collectMrns (csvData : List (String × CsvTable)) : List Value :=
  dedupPy (csvData.foldl (fun acc tbl =>
    if "mrn" ∈ tbl.2.cols then
      acc ++ (tbl.2.rows.map (fun row => getVal row "mrn")).filter notnaV
    else acc) [])

/-- `_ensure_person_table`: append a minimal person record for every
source `mrn` whose value is not among the existing `person_id`s. -/
def ensurePersonTable (csvData : List (String × CsvTable)) (st : EnhState) :
    EnhState :=
  let existing := personIdsOf (st "person")
  let allMrns := collectMrns csvData
  let newPersons := (allMrns.filter (fun m => !memPy m existing)).map
    (fun m => [("person_id", m), ("person_source_value", m)])
  fun t => if t = "person" then st "person" ++ newPersons else st t

/-- Add a value to the insertion-ordered set model. -/
def addEnc (encs : List Value) (e : Value) : List Value :=
  if memPy e encs then encs else encs ++ [e]

/-- Python dict assignment keyed by `==` on values. -/
def setAssocPy (m : List (Value × Value)) (k v : Value) : List (Value × Value) :=
  match m with
  | [] => [(k, v)]
  | (k2, v2) :: rest =>
    if k2.pyEq k then (k2, v) :: rest else (k2, v2) :: setAssocPy rest k v

/-- Python dict lookup keyed by `==` on values. -/
def lookupAssocPy (m : List (Value × Value)) (k : Value) : Option Value :=
  (m.find? (fun p => p.1.pyEq k)).map (fun p => p.2)

/-- One row of the scan of `_ensure_visit_occurrence_table`: record the
encounter number when non-null, and remember its `mrn` when available. -/
def encAccStep (cols : List String) (acc : List Value × List (Value × Value))
    (row : SourceRecord) : List Value × List (Value × Value) :=
  let e := getVal row "encntr_num"
  if notnaV e then
    (addEnc acc.1 e,
     if "mrn" ∈ cols && notnaV (getVal row "mrn")
     then setAssocPy acc.2 e (getVal row "mrn") else acc.2)
  else acc

/-- The scan of `_ensure_visit_occurrence_table`: all distinct encounter
numbers, and the encounter → mrn map (last row wins). -/
def collectEncounterData (csvData : List (String × CsvTable)) :
    List Value × List (Value × Value) :=
  csvData.foldl (fun acc tbl =>
    if "encntr_num" ∈ tbl.2.cols then
      tbl.2.rows.foldl (encAccStep tbl.2.cols) acc
    else acc) ([], [])

/-- The `visit_occurrence_id` values present on a table's records. -/
def visitIdsOf (l : List Record) : List Value :=
  l.filterMap (fun r => getField? r "visit_occurrence_id")

/-- `_ensure_visit_occurrence_table`: append a minimal visit record for
every source encounter number not among the existing
`visit_occurrence_id`s, with the owning `mrn` when resolvable. -/
def ensureVisitOccurrenceTable (csvData : List (String × CsvTable))
    (st : EnhState) : EnhState :=
  let existing := visitIdsOf (st "visit_occurrence")
  let cd := collectEncounterData csvData
  let newVisits := (cd.1.filter (fun e => !memPy e existing)).map (fun e =>
    let base := [("visit_occurrence_id", e), ("visit_source_value", e)]
    match lookupAssocPy cd.2 e with
    | some m => base ++ [("person_id", m)]
    | none => base)
  fun t => if t = "visit_occurrence" then st "visit_occurrence" ++ newVisits
    else st t

/-- The `sequence_tables` dict of `_add_sequence_numbers`. -/
def sequenceTables : List (String × String) :=
  [("condition_occurrence", "condition_occurrence_id"),
   ("procedure_occurrence", "procedure_occurrence_id"),
   ("drug_exposure", "drug_exposure_id"),
   ("measurement", "measurement_id"),
   ("observation", "observation_id"),
   ("device_exposure", "device_exposure_id"),
   ("specimen", "specimen_id")]

/-- `for i, record in enumerate(records, 1): if id_field not in record:
record[id_field] = i`. -/
def numberRecords (idField : String) (l : List Record) : List Record :=
  l.enum.map (fun p =>
    if hasField p.2 idField then p.2
    else setField p.2 idField (.intV ((p.1 : Int) + 1)))

/-- `_add_sequence_numbers`: number the records of each sequence table
(tables never touched hold the empty list, on which numbering is vacuous,
so the `in self.omop_data` membership test is behaviourally absorbed). -/
def addSequenceNumbers (st : EnhState) : EnhState :=
  fun t => match lookupAssoc sequenceTables t with
    | some idField => numberRecords idField (st t)
    | none => st t

/-- Strip the internal `_record_id` from every record of every table. -/
def stripRecordIds (st : EnhState) : EnhState :=
  fun t => (st t).map (fun r => removeFieldFirst r "_record_id")

/-- `_post_process_omop_data` of `EnhancedIHIDETL`: synthesize persons and
visits, add sequence numbers, strip internal keys. -/
def enhPostProcessOmopData (csvData : List (String × CsvTable)) (st : EnhState) :
    EnhState :=
  stripRecordIds (addSequenceNumbers
    (ensureVisitOccurrenceTable csvData (ensurePersonTable csvData st)))

/-- The whole enhanced transformation from a fresh state. -/
def enhRun (mapping : EnhMapping) (csvData : List (String × CsvTable)) : EnhState :=
  enhPostProcessOmopData csvData
    (enhTransformTables mapping csvData (fun _ => []))

/-! ### Propositions and concrete instances referenced by the claims -/

/-- The record-key/index invariant of the optimized engine's working
state: the lookup index maps a key to a position exactly when the record
at that position bears that key in its `_record_id` field (this forces
each key to be borne by at most one record). -/
def LookupInvariant (st : EtlState) : Prop :=
  ∀ t k i, st.lookup t k = some i ↔
    ∃ r, (st.data t).get? i = some r ∧
      getField? r "_record_id" = some (.strV k)

/-- A rule whose target field is none of the standard identifier fields
that `_add_standard_identifiers` injects at record creation. -/
def RuleAvoidsInjected (m : Rule) : Prop :=
  m.omop_field ≠ some "person_id" ∧ m.omop_field ≠ some "visit_occurrence_id"

/-- A rule whose target field is not the internal key field. -/
def RuleAvoidsRecordId (m : Rule) : Prop :=
  m.omop_field ≠ some "_record_id"

/-- The `mrn -> person.person_id` rule of the specification's scenario. -/
def c1Rule1 : Rule :=
  ⟨"Admission / Discharge", "mrn", some "person", some "person_id",
   some "core_identifier"⟩

/-- The `admit_dt_tm -> visit_occurrence.visit_start_date` rule of the
specification's scenario. -/
def c1Rule2 : Rule :=
  ⟨"Admission / Discharge", "admit_dt_tm", some "visit_occurrence",
   some "visit_start_date", some "exact"⟩

/-- The specification scenario's source record. -/
def c1Rec : SourceRecord :=
  [("mrn", .strV "P001"), ("encntr_num", .strV "E001"),
   ("admit_dt_tm", .strV "2023-01-15 09:30")]

/-- The engine state after processing the scenario record and
post-processing. -/
def c1Final : EtlState :=
  postProcessOmopData
    (processRecord [c1Rule1, c1Rule2] "Admission / Discharge" EtlState.empty c1Rec)

/-- A rule mapping a source field onto `condition_occurrence.person_id`. -/
def c2Rule : Rule := ⟨"T", "x", some "condition_occurrence", some "person_id", none⟩

/-- A record whose subject id is the non-numeric string `"7"` while the
mapped field `x` converts to the integer `5`. -/
def c2Rec : SourceRecord :=
  [("mrn", .strV "7"), ("encntr_num", .strV "9"), ("x", .strV "5")]

/-- State after one application of the `person_id`-targeting rule. -/
def c2State : EtlState := processRecord [c2Rule] "T" EtlState.empty c2Rec

/-- State after applying the record once (for the idempotence claim). -/
def c3StateOnce : EtlState := processRecord [c2Rule] "T" EtlState.empty c2Rec

/-- State after applying the same record a second time. -/
def c3StateTwice : EtlState := processRecord [c2Rule] "T" c3StateOnce c2Rec

/-- A record with a present, truthy encounter number. -/
def c5RecPresent : SourceRecord := [("encntr_num", .strV "E001")]

/-- A record whose encounter number is present but empty (falsy). -/
def c5RecBlank : SourceRecord := [("encntr_num", .strV "")]

/-- First of two records agreeing on subject and encounter ids. -/
def c8Rec1 : SourceRecord :=
  [("mrn", .strV "1"), ("encntr_num", .strV "2"), ("event_id", .strV "10")]

/-- Second record: same subject and encounter ids, different event id. -/
def c8Rec2 : SourceRecord :=
  [("mrn", .strV "1"), ("encntr_num", .strV "2"), ("event_id", .strV "11")]

/-- A rule whose target field is the internal key field `_record_id`. -/
def c10Rule : Rule := ⟨"T", "y", some "observation", some "_record_id", none⟩

/-- A record giving that rule an integral value. -/
def c10Rec : SourceRecord := [("event_id", .intV 1), ("y", .intV 3)]

/-- The state after applying the `_record_id`-targeting rule. -/
def c10State : EtlState := processRecord [c10Rule] "T" EtlState.empty c10Rec

/-- An enhanced-engine mapping sending two source fields to
`person.person_id`. -/
def c6Map : EnhMapping :=
  [("T", [("x", [⟨"person", "person_id"⟩]), ("y", [⟨"person", "person_id"⟩])])]

/-- A row whose mapped fields both write `person_id := 2` over the
injected subject id `1`. -/
def c6Rec1 : SourceRecord := [("mrn", .intV 1), ("x", .intV 2), ("y", .intV 2)]

/-- A row for subject `2` whose mapped field writes `99`, then the
injection restores `person_id := 2`. -/
def c6Rec2 : SourceRecord := [("mrn", .intV 2), ("x", .intV 99), ("y", .nanV)]

/-- The loaded CSV data for the synthesis counterexample. -/
def c6Csv : List (String × CsvTable) := [("T", ⟨["mrn", "x", "y"], [c6Rec1, c6Rec2]⟩)]

/-- The full enhanced run on that data. -/
def c6Final : EnhState := enhRun c6Map c6Csv

/-- A state whose `measurement` table has two records, both missing the
sequence identifier. -/
def c9State : EnhState :=
  fun t => if t = "measurement" then [[("a", Value.intV 1)], [("b", Value.intV 2)]]
    else []

/-! ### Decomposition of a rule application, used for the idempotence claim -/

/-- The effect (target table, target field, converted value) of one rule
on one standardized record; `none` when the rule has no effect on the
state (absent or guarded value, failed conversion, missing target names —
the skip and caught-exception paths of `_apply_mapping_optimized`). -/
def ruleEffect (sr : SourceRecord) (m : Rule) :
    Option (String × String × Value) :=
  let value := getVal sr m.ihid_field
  if value = .noneV || value = .strV "" || value = .nanV then none
  else
    match m.omop_field with
    | none => none
    | some f =>
      match convertValue value f with
      | none => none
      | some cv =>
        match m.omop_table with
        | none => none
        | some t => some (t, f, cv)

/-- The state transformation of an effective rule application: update the
indexed record (skipping an out-of-range index, as the caught `IndexError`
does), or create, inject and index a new record. -/
def applyEffect (sr : SourceRecord) (t f : String) (cv : Value)
    (st : EtlState) : EtlState :=
  let rid := generateRecordId sr t
  match st.lookup t rid with
  | some i =>
    match (st.data t).get? i with
    | none => st
    | some r =>
      { st with data := fun t2 => if t2 = t
          then (st.data t).set i (setField r f cv) else st.data t2 }
  | none =>
    let newRecord := addStandardIdentifiers
      (setField (setField [] "_record_id" (.strV rid)) f cv) sr t
    { st with
      data := fun t2 => if t2 = t then st.data t ++ [newRecord] else st.data t2,
      lookup := fun t2 k => if t2 = t ∧ k = rid
        then some (st.data t).length else st.lookup t2 k }

/-- Folding a rule list over the state (the applicable-rule loop of
`_process_batch` for one record). -/
def passRules (sr : SourceRecord) (ms : List Rule) (st : EtlState) : EtlState :=
  ms.foldl (stepRule sr) st

/-- The field writes a rule list performs at table `t`, position `i`, with
key resolution through a fixed lookup index `L`. -/
def writesForL (sr : SourceRecord) (L : String → String → Option Nat)
    (ms : List Rule) (t : String) (i : Nat) : List (String × Value) :=
  ms.filterMap (fun m =>
    match ruleEffect sr m with
    | some x =>
      if x.1 = t ∧ L x.1 (generateRecordId sr x.1) = some i
      then some (x.2.1, x.2.2) else none
    | none => none)

/-- The standard-identifier writes `_add_standard_identifiers` performs,
as an explicit write list. -/
def injWrites (sr : SourceRecord) (t : String) : List (String × Value) :=
  let mrn := subjectId sr
  let encntrNum := encounterId sr
  let tl := strToLower t
  (if tl ≠ "person" && mrn.truthy then [("person_id", mrn)] else []) ++
  (if tl ∈ eventTables && encntrNum.truthy
    then [("visit_occurrence_id", encntrNum)] else []) ++
  (if tl = "person" && mrn.truthy then [("person_id", mrn)]
   else if tl = "visit_occurrence" && encntrNum.truthy then
     [("visit_occurrence_id", encntrNum)] ++
       (if mrn.truthy then [("person_id", mrn)] else [])
   else [])

/-- Drop the writes whose field is in `F`. -/
def dropFields (F : List String) (ws : List (String × Value)) :
    List (String × Value) :=
  ws.filter (fun p => !F.contains p.1)

/-- The keys of a record (in order). -/
def keysOf (r : Record) : List String := r.map Prod.fst

/-- Every effective rule's record key is present in the lookup index. -/
def KeysPresent (sr : SourceRecord) (ms : List Rule) (st : EtlState) : Prop :=
  ∀ m ∈ ms, ∀ x : String × String × Value, ruleEffect sr m = some x →
    ∃ i, st.lookup x.1 (generateRecordId sr x.1) = some i

/-- A state whose lookup index points only at existing list positions
(true of every state the engine reaches from its fresh state). -/
def Valid (st : EtlState) : Prop :=
  ∀ t k j, st.lookup t k = some j → ∃ r, (st.data t).get? j = some r

/-! ## Record lemmas -/

theorem getField?_setField_self (r : Record) (f : String) (v : Value) :
    getField? (setField r f v) f = some v := by
  induction r with
  | nil => simp [setField, getField?]
  | cons p rest ih =>
    obtain ⟨g, w⟩ := p
    by_cases h : g = f
    · subst h; simp [setField, getField?]
    · simp [setField, getField?, h, ih]

theorem getField?_setField_ne (r : Record) (f g : String) (v : Value)
    (h : g ≠ f) : getField? (setField r g v) f = getField? r f := by
  induction r with
  | nil => simp [setField, getField?, h]
  | cons p rest ih =>
    obtain ⟨g2, w⟩ := p
    by_cases h2 : g2 = g
    · subst h2; simp [setField, getField?, h]
    · by_cases h3 : g2 = f
      · subst h3; simp [setField, getField?, h2]
      · simp [setField, getField?, h2, h3, ih]

theorem getField?_removeFieldFirst_ne (r : Record) (f g : String)
    (h : g ≠ f) : getField? (removeFieldFirst r g) f = getField? r f := by
  induction r with
  | nil => simp [removeFieldFirst]
  | cons p rest ih =>
    obtain ⟨g2, w⟩ := p
    by_cases h2 : g2 = g
    · subst h2; simp [removeFieldFirst, getField?, h]
    · by_cases h3 : g2 = f
      · subst h3; simp [removeFieldFirst, getField?, h2]
      · simp [removeFieldFirst, getField?, h2, h3, ih]

/-! ## Claim C1: the specification's end-to-end scenario -/

/-- C1, counterexample.  On the scenario input — source record
`mrn = "P001"`, `encntr_num = "E001"`, `admit_dt_tm = "2023-01-15 09:30"`
with the rules `mrn -> person.person_id` and
`admit_dt_tm -> visit_occurrence.visit_start_date` — the optimized engine
produces NO person record at all: `_convert_value` sends the non-numeric
`"P001"` aimed at the identifier field `person_id` to `None`, so the rule
is skipped and the person table stays empty, contrary to the claimed
person record with `person_id = "P001"`. -/
theorem c1_counterexample : c1Final.data "person" = [] := by decide

/-- C1, amended.  On the scenario input the engine produces no person
record (the `mrn` rule is skipped because `"P001"` fails the integral
conversion required for the identifier field `person_id`), and exactly the
claimed `visit_occurrence` record `visit_start_date = "2023-01-15"`,
`person_id = "P001"`, `visit_occurrence_id = "E001"`. -/
theorem c1_amended_scenario :
    c1Final.data "person" = [] ∧
    c1Final.data "visit_occurrence" =
      [[("visit_start_date", .strV "2023-01-15"),
        ("person_id", .strV "P001"),
        ("visit_occurrence_id", .strV "E001")]] := by decide

/-! ## Claim C5: the visit-table record key -/

/-- C5, counterexample.  For a record with `encntr_num = "E001"` the key
for table `visit_occurrence` is `"visit_E001"` — the fixed prefix
`visit_`, not the table name `visit_occurrence` as claimed; and for a
record whose encounter field is present but empty the engine falls back to
the unknown-hash key even though the field is present. -/
theorem c5_counterexample :
    generateRecordId c5RecPresent "visit_occurrence" = "visit_E001" ∧
    generateRecordId c5RecPresent "visit_occurrence" ≠
      "visit_occurrence_" ++ "E001" ∧
    hasField c5RecBlank "encntr_num" = true ∧
    generateRecordId c5RecBlank "visit_occurrence" =
      "visit_unknown_" ++ toString (hashRecord c5RecBlank) := by decide

/-- C5, amended.  For the visit/encounter target table the key is
`"visit_" ++ <encounter_id>` whenever the encounter identifier
(`encntr_num`, falling back to `encounter_number`) is truthy, and the
unknown-hash fallback `"visit_unknown_" ++ <hash>` whenever it is absent
or falsy. -/
theorem c5_amended (r : SourceRecord) (t : String)
    (h : strToLower t = "visit_occurrence") :
    ((encounterId r).truthy = true →
      generateRecordId r t = "visit_" ++ (encounterId r).pyStr) ∧
    ((encounterId r).truthy = false →
      generateRecordId r t = "visit_unknown_" ++ toString (hashRecord r)) := by
  unfold generateRecordId
  rw [h]
  constructor <;> intro h2 <;> simp [h2]

/-- C5, witness for the amended theorem at the concrete record
`encntr_num = "E001"`. -/
theorem c5_witness :
    strToLower "visit_occurrence" = "visit_occurrence" ∧
    (encounterId c5RecPresent).truthy = true ∧
    generateRecordId c5RecPresent "visit_occurrence" =
      "visit_" ++ (encounterId c5RecPresent).pyStr :=
  ⟨by decide, by decide,
    (c5_amended c5RecPresent "visit_occurrence" (by decide)).1 (by decide)⟩

/-! ## Claim C2: identifier injection on record creation -/

/-- C2, counterexample.  Mapping `x -> condition_occurrence.person_id` on
the record `mrn = "7"`, `encntr_num = "9"`, `x = "5"`: the mapped value
converts to the integer `5`, but the created record ends with
`person_id = "7"` — `_add_standard_identifiers` assigns unconditionally
and OVERWRITES the just-converted mapped value, contrary to the claim that
injection writes only fields not already set. -/
theorem c2_counterexample :
    convertValue (getVal (standardizeFieldNames c2Rec) "x") "person_id" =
      some (.intV 5) ∧
    c2State.data "condition_occurrence" =
      [[("_record_id", .strV "condition_occurrence_7_9"),
        ("person_id", .strV "7"),
        ("visit_occurrence_id", .strV "9")]] := by decide

/-- C2, amended.  Identifier injection is unconditional: for every record
contents (whatever fields are already set, the mapped field included),
every non-person target table with a truthy subject id ends with
`person_id` bound to the raw subject id, and every event-table record with
a truthy encounter id ends with `visit_occurrence_id` bound to the raw
encounter id — so when the mapped field is one of these, the injected
value overwrites the converted mapped value. -/
theorem c2_amended (r0 : Record) (sr : SourceRecord) (t : String)
    (hp : strToLower t ≠ "person") (hm : (subjectId sr).truthy = true) :
    getField? (addStandardIdentifiers r0 sr t) "person_id" =
      some (subjectId sr) ∧
    (strToLower t ∈ eventTables → (encounterId sr).truthy = true →
      getField? (addStandardIdentifiers r0 sr t) "visit_occurrence_id" =
        some (encounterId sr)) := by
  have hev1 : ("person" : String) ∉ eventTables := by decide
  have hev2 : ("visit_occurrence" : String) ∉ eventTables := by decide
  constructor
  · simp only [addStandardIdentifiers]
    split_ifs <;>
      simp_all [getField?_setField_self, getField?_setField_ne]
  · intro hevt henc
    simp only [addStandardIdentifiers]
    split_ifs <;>
      simp_all [getField?_setField_self, getField?_setField_ne]

/-- C2, witness for the amended theorem: a record already holding
`person_id = 5` has it overwritten with the raw subject id `"7"`. -/
theorem c2_witness :
    getField? (addStandardIdentifiers [("person_id", Value.intV 5)]
        [("mrn", Value.strV "7")] "condition_occurrence") "person_id" =
      some (subjectId [("mrn", Value.strV "7")]) :=
  (c2_amended [("person_id", Value.intV 5)] [("mrn", Value.strV "7")]
    "condition_occurrence" (by decide) (by decide)).1

/-! ## Claim C4: absent conversions have no effect -/

theorem parsePyFloat_blank (s : String) (h : pyStrip s = "") :
    parsePyFloat s = none := by
  simp only [parsePyFloat, h]
  rfl

theorem not_isDigit_of_isWhitespace (c : Char) (h : c.isWhitespace = true) :
    c.isDigit = false := by
  simp only [Char.isWhitespace, Bool.or_eq_true, decide_eq_true_eq] at h
  rcases h with ((h | h) | h) | h <;> subst h <;> decide

theorem all_whitespace_of_pyStrip_empty (s : String) (h : pyStrip s = "")
    (c : Char) (hc : c ∈ s.toList) : c.isWhitespace = true := by
  have h2 : trimChars s.toList = [] := by
    have h3 := congrArg String.toList h
    simpa [pyStrip] using h3
  unfold trimChars at h2
  rw [List.reverse_eq_nil_iff, List.dropWhile_eq_nil_iff] at h2
  have hds : ∀ x ∈ s.toList.dropWhile Char.isWhitespace, x.isWhitespace = true := by
    intro x hx
    exact h2 x (List.mem_reverse.mpr hx)
  have hc2 : c ∈ s.toList.takeWhile Char.isWhitespace ++
      s.toList.dropWhile Char.isWhitespace := by
    rw [List.takeWhile_append_dropWhile]
    exact hc
  rcases List.mem_append.mp hc2 with hc3 | hc3
  · exact List.mem_takeWhile_imp hc3
  · exact hds c hc3

theorem parsePandasDate_none_of_no_digit (s : String)
    (h : ∀ c ∈ s.toList, c.isDigit = false) : parsePandasDate s = none := by
  unfold parsePandasDate
  split
  · next y1 y2 y3 y4 m1 m2 d1 d2 rest heq =>
    have hy : y1 ∈ s.toList := by rw [heq]; exact List.mem_cons_self _ _
    simp [h y1 hy]
  · rfl

theorem convertValue_blank (s f : String) (h : pyStrip s = "") :
    convertValue (Value.strV s) f = none := by
  have hfl : parsePyFloat s = none := parsePyFloat_blank s h
  have hd : parsePandasDate s = none :=
    parsePandasDate_none_of_no_digit s (fun c hc =>
      not_isDigit_of_isWhitespace c (all_whitespace_of_pyStrip_empty s h c hc))
  simp only [convertValue, convertToDate, pyFloatOf]
  split_ifs <;> simp_all [Value.truthy, h, hfl, hd]

/-- C4: a conversion that yields absent has no effect.  If the source
value is null, NaN, or a blank string, the conversion yields `none` for
every target field; if it is a string that fails numeric parsing and the
target field is identifier-suffixed, the conversion also yields `none`;
and in either case the rule application leaves the engine state completely
unchanged — it writes no field and creates no record, so the non-numeric
value never reaches the mapped identifier field. -/
theorem c4_absent_no_effect (m : Rule) (r : SourceRecord) (st : EtlState)
    (f : String) (hf : m.omop_field = some f)
    (h : getVal r m.ihid_field = Value.noneV ∨
      getVal r m.ihid_field = Value.nanV ∨
      (∃ s, getVal r m.ihid_field = Value.strV s ∧ pyStrip s = "") ∨
      (∃ s, getVal r m.ihid_field = Value.strV s ∧ parsePyFloat s = none ∧
        isIdField (strToLower f) = true)) :
    convertValue (getVal r m.ihid_field) f = none ∧ stepRule r st m = st := by
  have hconv : convertValue (getVal r m.ihid_field) f = none := by
    rcases h with h | h | ⟨s, hs, hb⟩ | ⟨s, hs, hp, hid⟩
    · rw [h]; rfl
    · rw [h]; rfl
    · rw [hs]; exact convertValue_blank s f hb
    · rw [hs]
      simp only [convertValue, hid, hp]
      split_ifs <;> rfl
  refine ⟨hconv, ?_⟩
  simp only [stepRule, applyMappingOpt]
  split_ifs with hg
  · rfl
  · simp only [hf, hconv]
    rfl

/-- C4, witness: the scenario value `"P001"` aimed at `person_id` converts
to absent and leaves the empty state untouched. -/
theorem c4_witness :
    convertValue (getVal [("mrn", Value.strV "P001")] "mrn") "person_id" = none ∧
    stepRule [("mrn", Value.strV "P001")] EtlState.empty
      ⟨"T", "mrn", some "person", some "person_id", none⟩ = EtlState.empty :=
  c4_absent_no_effect ⟨"T", "mrn", some "person", some "person_id", none⟩
    [("mrn", Value.strV "P001")] EtlState.empty "person_id" rfl
    (Or.inr (Or.inr (Or.inr ⟨"P001", rfl, by decide, by decide⟩)))

/-! ## Claim C7: per-rule failures never abort processing -/

/-- C7: a conversion failure or a missing `omop_table`/`omop_field` in a
rule only skips that rule for that record: the step leaves the state
unchanged, raises nothing to the caller (the step is a total function),
and folding the remaining rules proceeds exactly as if the failing rule
were absent. -/
theorem c7_per_rule_failure_skips (sr : SourceRecord) (st : EtlState)
    (m : Rule) (rest : List Rule)
    (h : m.omop_table = none ∨ m.omop_field = none ∨
      (∀ f, m.omop_field = some f →
        convertValue (getVal sr m.ihid_field) f = none)) :
    stepRule sr st m = st ∧
    (m :: rest).foldl (stepRule sr) st = rest.foldl (stepRule sr) st := by
  have hstep : stepRule sr st m = st := by
    simp only [stepRule, applyMappingOpt]
    split_ifs with hg
    · rfl
    · rcases h with h | h | h
      · cases hof : m.omop_field with
        | none => rfl
        | some f =>
          simp only [hof]
          cases hcv : convertValue (getVal sr m.ihid_field) f with
          | none => rfl
          | some cv => simp only [h]; rfl
      · simp only [h]; rfl
      · cases hof : m.omop_field with
        | none => rfl
        | some f => simp only [hof, h f hof]; rfl
  exact ⟨hstep, by rw [List.foldl_cons, hstep]⟩

/-- C7, witness: a rule with no target table is skipped and the next rules
proceed on the unchanged state. -/
theorem c7_witness :
    stepRule [("x", Value.strV "1")] EtlState.empty
      ⟨"T", "x", none, some "f", none⟩ = EtlState.empty :=
  (c7_per_rule_failure_skips [("x", Value.strV "1")] EtlState.empty
    ⟨"T", "x", none, some "f", none⟩ [] (Or.inl rfl)).1

/-! ## Claim C8: determinism of record-key derivation -/

/-- C8, counterexample.  Two records with the same subject id and the same
encounter id but different `event_id`s receive different record keys for
the target table `measurement` (which is keyed by event id, not by the
subject/encounter pair), refuting the claim for that target table. -/
theorem c8_counterexample :
    getVal c8Rec1 "mrn" = getVal c8Rec2 "mrn" ∧
    getVal c8Rec1 "encntr_num" = getVal c8Rec2 "encntr_num" ∧
    generateRecordId c8Rec1 "measurement" ≠
      generateRecordId c8Rec2 "measurement" := by decide

/-- C8, amended.  (1) For the identifier-keyed target tables — `person`,
`visit_occurrence`, `condition_occurrence`, `procedure_occurrence`,
`drug_exposure` — two records with the same truthy subject id and the same
truthy encounter id receive the same record key.  (2) For every target
table the key depends on the record only through its resolved subject,
encounter and event identifiers and its rendered content (so the hash
fallback is content-addressed and deterministic within a run). -/
theorem c8_amended :
    (∀ r1 r2 : SourceRecord, ∀ t : String,
      (strToLower t = "person" ∨ strToLower t = "visit_occurrence" ∨
        strToLower t = "condition_occurrence" ∨ strToLower t = "procedure_occurrence" ∨
        strToLower t = "drug_exposure") →
      subjectId r1 = subjectId r2 → encounterId r1 = encounterId r2 →
      (subjectId r1).truthy = true → (encounterId r1).truthy = true →
      generateRecordId r1 t = generateRecordId r2 t) ∧
    (∀ r1 r2 : SourceRecord, ∀ t : String,
      subjectId r1 = subjectId r2 → encounterId r1 = encounterId r2 →
      eventIdOf r1 = eventIdOf r2 → recordStr r1 = recordStr r2 →
      generateRecordId r1 t = generateRecordId r2 t) := by
  constructor
  · intro r1 r2 t ht hs he hst het
    unfold generateRecordId
    rcases ht with h | h | h | h | h <;>
      rw [h] <;> simp [← hs, ← he, hst, het]
  · intro r1 r2 t hs he hev hstr
    unfold generateRecordId hashRecord
    rw [hs, he, hev, hstr]

/-- C8, witness for the amended theorem: the two concrete records above
share their key for `condition_occurrence`. -/
theorem c8_witness :
    subjectId c8Rec1 = subjectId c8Rec2 ∧
    encounterId c8Rec1 = encounterId c8Rec2 ∧
    (subjectId c8Rec1).truthy = true ∧
    generateRecordId c8Rec1 "condition_occurrence" =
      generateRecordId c8Rec2 "condition_occurrence" :=
  ⟨by decide, by decide, by decide,
    c8_amended.1 c8Rec1 c8Rec2 "condition_occurrence" (by decide)
      (by decide) (by decide) (by decide) (by decide)⟩

/-! ## Claim C9: sequence-number assignment -/

/-- C9: for every table on the sequence-table list, the post-processing
pass leaves the table's length unchanged, leaves every record already
carrying the identifier field exactly as it was, gives every record
missing it the value `i` at 1-based position `i`, and — when no record
carries the field — the assigned identifiers are exactly `1..N` in append
order. -/
theorem c9_sequence_numbers (t idf : String) (st : EnhState)
    (h : lookupAssoc sequenceTables t = some idf) :
    (addSequenceNumbers st t).length = (st t).length ∧
    (∀ i r, (st t).get? i = some r →
      (addSequenceNumbers st t).get? i =
        some (if hasField r idf then r
          else setField r idf (.intV ((i : Int) + 1)))) ∧
    ((∀ r ∈ st t, hasField r idf = false) →
      (addSequenceNumbers st t).map (fun r => getField? r idf) =
        (List.range (st t).length).map
          (fun i : Nat => some (Value.intV ((i : Int) + 1)))) := by
  have hx : addSequenceNumbers st t = numberRecords idf (st t) := by
    unfold addSequenceNumbers
    rw [h]
  rw [hx]
  refine ⟨by simp [numberRecords], ?_, ?_⟩
  · intro i r hr
    have henum : (st t).enum.get? i = some (i, r) := by
      rw [List.get?_enum, hr]; rfl
    calc (numberRecords idf (st t)).get? i
        = ((st t).enum.get? i).map (fun p =>
            if hasField p.2 idf then p.2
            else setField p.2 idf (.intV ((p.1 : Int) + 1))) := by
          simp [numberRecords, List.get?_map]
      _ = some (if hasField r idf then r
            else setField r idf (.intV ((i : Int) + 1))) := by rw [henum]; rfl
  · intro hall
    have h1 : (numberRecords idf (st t)).map (fun r => getField? r idf) =
        (st t).enum.map (fun p => some (Value.intV ((p.1 : Int) + 1))) := by
      simp only [numberRecords, List.map_map]
      apply List.map_congr_left
      intro p hp
      obtain ⟨i, x⟩ := p
      have h3 := List.mem_enumFrom hp
      have hmem : x ∈ st t := by
        rw [h3.2.2]
        exact List.getElem_mem _
      simp [hall x hmem, getField?_setField_self]
    rw [h1]
    have h2 : List.range (st t).length = (st t).enum.map Prod.fst :=
      (List.enum_map_fst (st t)).symm
    rw [h2, List.map_map]
    rfl

/-- C9, witness: a `measurement` table of two records, both missing
`measurement_id`, receives exactly the identifiers `1, 2`. -/
theorem c9_witness :
    lookupAssoc sequenceTables "measurement" = some "measurement_id" ∧
    (addSequenceNumbers c9State "measurement").map
        (fun r => getField? r "measurement_id") =
      (List.range (c9State "measurement").length).map
        (fun i : Nat => some (Value.intV ((i : Int) + 1))) :=
  ⟨by decide,
    (c9_sequence_numbers "measurement" "measurement_id" c9State
      (by decide)).2.2 (by decide)⟩

/-! ## Claim C6: synthesis of person and visit tables -/

theorem pyEq_refl (v : Value) (h : v ≠ Value.nanV) : v.pyEq v = true := by
  cases v <;> simp_all [Value.pyEq]

theorem memPy_exists (v : Value) (vs : List Value) (h : memPy v vs = true) :
    ∃ w ∈ vs, w.pyEq v = true := by
  simpa [memPy, List.any_eq_true] using h

theorem mem_personIdsOf (l : List Record) (w : Value) (h : w ∈ personIdsOf l) :
    ∃ r ∈ l, getField? r "person_id" = some w := by
  simpa [personIdsOf, List.mem_filterMap] using h

theorem mem_visitIdsOf (l : List Record) (w : Value) (h : w ∈ visitIdsOf l) :
    ∃ r ∈ l, getField? r "visit_occurrence_id" = some w := by
  simpa [visitIdsOf, List.mem_filterMap] using h

theorem mem_dedupPy_aux (vs : List Value) (acc : List Value) (x : Value)
    (h : x ∈ vs.foldl (fun acc v => if memPy v acc then acc else acc ++ [v]) acc) :
    x ∈ acc ∨ x ∈ vs := by
  induction vs generalizing acc with
  | nil => exact Or.inl h
  | cons v rest ih =>
    rcases ih (if memPy v acc then acc else acc ++ [v]) h with h2 | h2
    · split_ifs at h2 with hm
      · exact Or.inl h2
      · rcases List.mem_append.mp h2 with h3 | h3
        · exact Or.inl h3
        · simp only [List.mem_singleton] at h3
          subst h3
          exact Or.inr (List.mem_cons_self _ _)
    · exact Or.inr (List.mem_cons_of_mem _ h2)

theorem mem_dedupPy (vs : List Value) (x : Value) (h : x ∈ dedupPy vs) :
    x ∈ vs := by
  rcases mem_dedupPy_aux vs [] x h with h2 | h2
  · cases h2
  · exact h2

theorem mrns_fold_notna (tbls : List (String × CsvTable)) (acc : List Value)
    (hacc : ∀ y ∈ acc, notnaV y = true) (x : Value)
    (hx : x ∈ tbls.foldl (fun acc tbl =>
      if "mrn" ∈ tbl.2.cols then
        acc ++ (tbl.2.rows.map (fun row => getVal row "mrn")).filter notnaV
      else acc) acc) :
    notnaV x = true := by
  induction tbls generalizing acc with
  | nil => exact hacc x hx
  | cons tbl rest ih =>
    refine ih _ ?_ hx
    intro y hy
    dsimp only at hy
    split_ifs at hy with hc
    · rcases List.mem_append.mp hy with h2 | h2
      · exact hacc y h2
      · exact List.of_mem_filter h2
    · exact hacc y hy

theorem collectMrns_notna (csv : List (String × CsvTable)) (x : Value)
    (h : x ∈ collectMrns csv) : notnaV x = true :=
  mrns_fold_notna csv [] (by intro y hy; cases hy) x (mem_dedupPy _ x h)

theorem encAccStep_notna (cols : List String)
    (acc : List Value × List (Value × Value)) (row : SourceRecord)
    (hacc : ∀ y ∈ acc.1, notnaV y = true) :
    ∀ y ∈ (encAccStep cols acc row).1, notnaV y = true := by
  intro y hy
  by_cases h1 : notnaV (getVal row "encntr_num") = true
  · have hy2 : y ∈ addEnc acc.1 (getVal row "encntr_num") := by
      simpa [encAccStep, h1] using hy
    simp only [addEnc] at hy2
    split_ifs at hy2
    · exact hacc y hy2
    · rcases List.mem_append.mp hy2 with h2 | h2
      · exact hacc y h2
      · simp only [List.mem_singleton] at h2
        subst h2
        exact h1
  · have hy2 : y ∈ acc.1 := by simpa [encAccStep, h1] using hy
    exact hacc y hy2

theorem encRows_notna (cols : List String) (rows : List SourceRecord)
    (acc : List Value × List (Value × Value))
    (hacc : ∀ y ∈ acc.1, notnaV y = true) :
    ∀ y ∈ (rows.foldl (encAccStep cols) acc).1, notnaV y = true := by
  induction rows generalizing acc with
  | nil => exact hacc
  | cons row rest ih => exact ih _ (encAccStep_notna cols acc row hacc)

theorem encTables_notna (tbls : List (String × CsvTable))
    (acc : List Value × List (Value × Value))
    (hacc : ∀ y ∈ acc.1, notnaV y = true) :
    ∀ y ∈ (tbls.foldl (fun acc tbl =>
      if "encntr_num" ∈ tbl.2.cols then
        tbl.2.rows.foldl (encAccStep tbl.2.cols) acc
      else acc) acc).1, notnaV y = true := by
  induction tbls generalizing acc with
  | nil => exact hacc
  | cons tbl rest ih =>
    refine ih _ ?_
    dsimp only
    split_ifs with hc
    · exact encRows_notna _ _ _ hacc
    · exact hacc

theorem collectEncounterData_notna (csv : List (String × CsvTable)) (x : Value)
    (h : x ∈ (collectEncounterData csv).1) : notnaV x = true :=
  encTables_notna csv ([], []) (by intro y hy; cases hy) x h

theorem notnaV_ne_nan (v : Value) (h : notnaV v = true) : v ≠ Value.nanV := by
  simp only [notnaV, Bool.and_eq_true, bne_iff_ne, ne_eq, decide_eq_true_eq] at h
  simpa using h.1

theorem ensurePersonTable_spec (csv : List (String × CsvTable)) (st : EnhState) :
    ensurePersonTable csv st "person" =
      st "person" ++ ((collectMrns csv).filter
        (fun m => !memPy m (personIdsOf (st "person")))).map
        (fun m => [("person_id", m), ("person_source_value", m)]) := by
  simp [ensurePersonTable]

theorem ensureVisitTable_spec (csv : List (String × CsvTable)) (st : EnhState) :
    ensureVisitOccurrenceTable csv st "visit_occurrence" =
      st "visit_occurrence" ++ (((collectEncounterData csv).1).filter
        (fun e => !memPy e (visitIdsOf (st "visit_occurrence")))).map (fun e =>
          match lookupAssocPy (collectEncounterData csv).2 e with
          | some m => [("visit_occurrence_id", e), ("visit_source_value", e)] ++
              [("person_id", m)]
          | none => [("visit_occurrence_id", e), ("visit_source_value", e)]) := by
  simp [ensureVisitOccurrenceTable]

theorem ensurePersonTable_covers (csv : List (String × CsvTable)) (st : EnhState)
    (v : Value) (hv : v ∈ collectMrns csv) :
    ∃ r ∈ ensurePersonTable csv st "person",
      (getVal r "person_id").pyEq v = true := by
  have hself : v.pyEq v = true :=
    pyEq_refl v (notnaV_ne_nan v (collectMrns_notna csv v hv))
  rw [ensurePersonTable_spec]
  by_cases hmem : memPy v (personIdsOf (st "person")) = true
  · obtain ⟨w, hw, hwe⟩ := memPy_exists v _ hmem
    obtain ⟨r, hr, hrf⟩ := mem_personIdsOf _ w hw
    refine ⟨r, List.mem_append_left _ hr, ?_⟩
    simp only [getVal, hrf, Option.getD_some]
    exact hwe
  · refine ⟨[("person_id", v), ("person_source_value", v)], ?_, ?_⟩
    · apply List.mem_append_right
      apply List.mem_map_of_mem
      exact List.mem_filter.mpr ⟨hv, by simp [hmem]⟩
    · simp [getVal, getField?, hself]

theorem ensureVisitTable_covers (csv : List (String × CsvTable)) (st : EnhState)
    (v : Value) (hv : v ∈ (collectEncounterData csv).1) :
    ∃ r ∈ ensureVisitOccurrenceTable csv st "visit_occurrence",
      (getVal r "visit_occurrence_id").pyEq v = true := by
  have hself : v.pyEq v = true :=
    pyEq_refl v (notnaV_ne_nan v (collectEncounterData_notna csv v hv))
  rw [ensureVisitTable_spec]
  by_cases hmem : memPy v (visitIdsOf (st "visit_occurrence")) = true
  · obtain ⟨w, hw, hwe⟩ := memPy_exists v _ hmem
    obtain ⟨r, hr, hrf⟩ := mem_visitIdsOf _ w hw
    refine ⟨r, List.mem_append_left _ hr, ?_⟩
    simp only [getVal, hrf, Option.getD_some]
    exact hwe
  · cases hlk : lookupAssocPy (collectEncounterData csv).2 v with
    | none =>
      refine ⟨[("visit_occurrence_id", v), ("visit_source_value", v)], ?_, ?_⟩
      · apply List.mem_append_right
        refine List.mem_map.mpr ⟨v, List.mem_filter.mpr ⟨hv, by simp [hmem]⟩, ?_⟩
        simp [hlk]
      · simp [getVal, getField?, hself]
    | some m =>
      refine ⟨[("visit_occurrence_id", v), ("visit_source_value", v),
        ("person_id", m)], ?_, ?_⟩
      · apply List.mem_append_right
        refine List.mem_map.mpr ⟨v, List.mem_filter.mpr ⟨hv, by simp [hmem]⟩, ?_⟩
        simp [hlk]
      · simp [getVal, getField?, hself]

theorem ensureVisit_keeps_person (csv : List (String × CsvTable)) (st : EnhState) :
    ensureVisitOccurrenceTable csv st "person" = st "person" := rfl

theorem addSeq_keeps_person (st : EnhState) :
    addSequenceNumbers st "person" = st "person" := rfl

theorem addSeq_keeps_visit (st : EnhState) :
    addSequenceNumbers st "visit_occurrence" = st "visit_occurrence" := rfl

theorem getVal_removeRecordId (r : Record) (f : String)
    (h : ("_record_id" : String) ≠ f) :
    getVal (removeFieldFirst r "_record_id") f = getVal r f := by
  simp only [getVal, getField?_removeFieldFirst_ne r f "_record_id" h]

/-- C6, counterexample.  On the concrete enhanced-engine run `c6Final`,
the subject id `2` appears in a source record, yet after the synthesis
pass TWO person records carry `person_id = 2`: the engine record for
subject `1` had its `person_id` overwritten to `2` by a mapped rule, and
`_ensure_person_table` deduplicates only by already-present `person_id`
values, so "exactly one root-entity record per subject id" fails. -/
theorem c6_counterexample :
    getVal c6Rec2 "mrn" = Value.intV 2 ∧
    (c6Final "person").countP
      (fun r => (getVal r "person_id").pyEq (Value.intV 2)) = 2 := by decide

/-- C6, amended.  After the synthesis pass every subject id appearing in
any source record has AT LEAST one person record bearing it, every
encounter id has at least one visit record bearing it, and the synthesized
minimal records are added only for identifiers not already present
(every record of the synthesized person/visit tables is either an engine
record or a minimal record for a missing identifier). -/
theorem c6_amended (csv : List (String × CsvTable)) (st : EnhState) :
    (∀ v ∈ collectMrns csv,
      ∃ r ∈ enhPostProcessOmopData csv st "person",
        (getVal r "person_id").pyEq v = true) ∧
    (∀ v ∈ (collectEncounterData csv).1,
      ∃ r ∈ enhPostProcessOmopData csv st "visit_occurrence",
        (getVal r "visit_occurrence_id").pyEq v = true) ∧
    (∀ r ∈ ensurePersonTable csv st "person",
      r ∈ st "person" ∨ ∃ m, m ∈ collectMrns csv ∧
        memPy m (personIdsOf (st "person")) = false ∧
        r = [("person_id", m), ("person_source_value", m)]) ∧
    (∀ r ∈ ensureVisitOccurrenceTable csv st "visit_occurrence",
      r ∈ st "visit_occurrence" ∨ ∃ e, e ∈ (collectEncounterData csv).1 ∧
        memPy e (visitIdsOf (st "visit_occurrence")) = false ∧
        getField? r "visit_occurrence_id" = some e) := by
  have hpipe_p : enhPostProcessOmopData csv st "person" =
      (ensurePersonTable csv st "person").map
        (fun r => removeFieldFirst r "_record_id") := by
    show stripRecordIds (addSequenceNumbers (ensureVisitOccurrenceTable csv
      (ensurePersonTable csv st))) "person" = _
    rw [stripRecordIds, addSeq_keeps_person, ensureVisit_keeps_person]
  have hpipe_v : enhPostProcessOmopData csv st "visit_occurrence" =
      (ensureVisitOccurrenceTable csv (ensurePersonTable csv st)
          "visit_occurrence").map
        (fun r => removeFieldFirst r "_record_id") := by
    show stripRecordIds (addSequenceNumbers (ensureVisitOccurrenceTable csv
      (ensurePersonTable csv st))) "visit_occurrence" = _
    rw [stripRecordIds, addSeq_keeps_visit]
  refine ⟨?_, ?_, ?_, ?_⟩
  · intro v hv
    obtain ⟨r, hr, hre⟩ := ensurePersonTable_covers csv st v hv
    refine ⟨removeFieldFirst r "_record_id", ?_, ?_⟩
    · rw [hpipe_p]; exact List.mem_map_of_mem _ hr
    · rw [getVal_removeRecordId r "person_id" (by decide)]; exact hre
  · intro v hv
    obtain ⟨r, hr, hre⟩ :=
      ensureVisitTable_covers csv (ensurePersonTable csv st) v hv
    refine ⟨removeFieldFirst r "_record_id", ?_, ?_⟩
    · rw [hpipe_v]; exact List.mem_map_of_mem _ hr
    · rw [getVal_removeRecordId r "visit_occurrence_id" (by decide)]; exact hre
  · intro r hr
    rw [ensurePersonTable_spec] at hr
    rcases List.mem_append.mp hr with h2 | h2
    · exact Or.inl h2
    · obtain ⟨m, hmf, heq⟩ := List.mem_map.mp h2
      obtain ⟨hm1, hm2⟩ := List.mem_filter.mp hmf
      refine Or.inr ⟨m, hm1, ?_, heq.symm⟩
      simpa using hm2
  · intro r hr
    rw [ensureVisitTable_spec] at hr
    rcases List.mem_append.mp hr with h2 | h2
    · exact Or.inl h2
    · obtain ⟨e, hef, heq⟩ := List.mem_map.mp h2
      obtain ⟨he1, he2⟩ := List.mem_filter.mp hef
      refine Or.inr ⟨e, he1, by simpa using he2, ?_⟩
      rw [← heq]
      cases hlk : lookupAssocPy (collectEncounterData csv).2 e <;>
        simp [hlk, getField?]

/-- C6, witness for the amended theorem: subject id `1` of the concrete
run has a person record after synthesis. -/
theorem c6_witness :
    Value.intV 1 ∈ collectMrns c6Csv ∧
    ∃ r ∈ enhPostProcessOmopData c6Csv
        (enhTransformTables c6Map c6Csv (fun _ => [])) "person",
      (getVal r "person_id").pyEq (Value.intV 1) = true :=
  ⟨by decide,
    (c6_amended c6Csv (enhTransformTables c6Map c6Csv (fun _ => []))).1
      (Value.intV 1) (by decide)⟩

/-! ## Claim C10: the record-key/index invariant -/

theorem getField?_addStandardIdentifiers (r : Record) (sr : SourceRecord)
    (t f : String) (h1 : f ≠ "person_id") (h2 : f ≠ "visit_occurrence_id") :
    getField? (addStandardIdentifiers r sr t) f = getField? r f := by
  simp only [addStandardIdentifiers]
  split_ifs <;>
    simp [getField?_setField_ne, Ne.symm h1, Ne.symm h2]

/-- C10, counterexample.  A rule whose target field is the internal key
field `_record_id` (an `_id`-suffixed field, so an integral value
converts) rewrites the key of the record it creates: the lookup index maps
`"observation_1"` to position `0`, but the record there carries
`_record_id = 3`, so the index no longer maps the key to a record bearing
it and the claimed invariant fails. -/
theorem c10_counterexample :
    c10State.lookup "observation" "observation_1" = some 0 ∧
    (c10State.data "observation").get? 0 =
      some [("_record_id", Value.intV 3)] ∧
    ¬ LookupInvariant c10State := by
  refine ⟨by decide, by decide, ?_⟩
  intro hinv
  obtain ⟨r, hr, hfield⟩ :=
    (hinv "observation" "observation_1" 0).mp (by decide)
  have hr2 : (c10State.data "observation").get? 0 =
      some [("_record_id", Value.intV 3)] := by decide
  rw [hr2] at hr
  injection hr with hr3
  subst hr3
  exact absurd hfield (by decide)

/-- C10, amended.  Provided no rule's target field is the internal key
field `_record_id`, the record-key/index invariant holds throughout the
merge loop: it holds for the fresh engine state, and every single rule
application preserves it — the lookup index maps each key to the position
of the unique record bearing it (so each application either updates the
indexed record or appends a record under a key not yet in the index). -/
theorem c10_amended :
    LookupInvariant EtlState.empty ∧
    ∀ (st : EtlState) (m : Rule) (sr : SourceRecord),
      LookupInvariant st → RuleAvoidsRecordId m →
      LookupInvariant (stepRule sr st m) := by
  constructor
  · intro t k i
    constructor
    · intro h
      exact absurd h (by simp [EtlState.empty])
    · rintro ⟨r, hr, _⟩
      simp [EtlState.empty] at hr
  · intro st m sr hinv hfld
    simp only [stepRule, applyMappingOpt]
    split_ifs with hg
    · exact hinv
    · split
      · exact hinv
      · next f heqf =>
        split
        · exact hinv
        · next cv heqcv =>
          split
          · exact hinv
          · next tbl heqtbl =>
            have hfne : f ≠ "_record_id" := by
              intro hc
              subst hc
              exact hfld heqf
            split
            · next i heqlk =>
              split
              · exact hinv
              · next newList hequpd =>
                cases hget : (st.data tbl).get? i with
                | none =>
                  rw [updateRecordAt, hget] at hequpd
                  cases hequpd
                | some r =>
                  rw [updateRecordAt, hget] at hequpd
                  injection hequpd with hnl
                  subst hnl
                  have hdata : ∀ j : Nat,
                      ((st.data tbl).set i (setField r f cv)).get? j =
                        if i = j then some (setField r f cv)
                        else (st.data tbl).get? j := by
                    intro j
                    by_cases hij : i = j
                    · subst hij
                      rw [if_pos rfl, List.get?_set_eq, hget]
                      rfl
                    · rw [if_neg hij, List.get?_set_ne _ _ hij]
                  intro t2 k j
                  constructor
                  · intro hlk2
                    obtain ⟨r2, hr2, hp2⟩ := (hinv t2 k j).mp hlk2
                    by_cases ht : t2 = tbl
                    · subst ht
                      refine ⟨if i = j then setField r f cv else r2, ?_, ?_⟩
                      · show (if t2 = t2 then
                            (st.data t2).set i (setField r f cv)
                            else st.data t2).get? j = _
                        rw [if_pos rfl, hdata j]
                        by_cases hij : i = j
                        · rw [if_pos hij, if_pos hij]
                        · rw [if_neg hij, if_neg hij]
                          exact hr2
                      · by_cases hij : i = j
                        · rw [if_pos hij]
                          rw [getField?_setField_ne _ _ _ _ hfne]
                          rw [hij] at hget
                          rw [hget] at hr2
                          injection hr2 with hr3
                          rw [hr3]
                          exact hp2
                        · rw [if_neg hij]
                          exact hp2
                    · refine ⟨r2, ?_, hp2⟩
                      show (if t2 = tbl then
                          (st.data tbl).set i (setField r f cv)
                          else st.data t2).get? j = _
                      rw [if_neg ht]
                      exact hr2
                  · rintro ⟨r2, hr2, hp2⟩
                    have hr2b : (if t2 = tbl then
                        (st.data tbl).set i (setField r f cv)
                        else st.data t2).get? j = some r2 := hr2
                    by_cases ht : t2 = tbl
                    · subst ht
                      rw [if_pos rfl, hdata j] at hr2b
                      apply (hinv t2 k j).mpr
                      by_cases hij : i = j
                      · rw [if_pos hij] at hr2b
                        injection hr2b with hr3
                        refine ⟨r, by rw [← hij]; exact hget, ?_⟩
                        rw [← hr3, getField?_setField_ne _ _ _ _ hfne] at hp2
                        exact hp2
                      · rw [if_neg hij] at hr2b
                        exact ⟨r2, hr2b, hp2⟩
                    · rw [if_neg ht] at hr2b
                      exact (hinv t2 k j).mpr ⟨r2, hr2b, hp2⟩
            · next heqlk =>
              intro t2 k j
              have hnewrid : getField? (addStandardIdentifiers
                  (setField (setField [] "_record_id"
                    (.strV (generateRecordId sr tbl))) f cv) sr tbl)
                  "_record_id" =
                  some (.strV (generateRecordId sr tbl)) := by
                rw [getField?_addStandardIdentifiers _ _ _ _
                  (by decide) (by decide)]
                rw [getField?_setField_ne _ _ _ _ hfne]
                exact getField?_setField_self _ _ _
              constructor
              · intro hlk2
                by_cases hcond : t2 = tbl ∧ k = generateRecordId sr tbl
                · obtain ⟨ht, hk⟩ := hcond
                  subst ht
                  subst hk
                  have hlk3 : some (st.data t2).length = some j := by
                    have h5 : (if t2 = t2 ∧ generateRecordId sr t2 =
                        generateRecordId sr t2
                        then some (st.data t2).length
                        else st.lookup t2 (generateRecordId sr t2)) = some j :=
                      hlk2
                    rwa [if_pos ⟨rfl, rfl⟩] at h5
                  injection hlk3 with hlen
                  refine ⟨_, ?_, hnewrid⟩
                  show (if t2 = t2 then st.data t2 ++
                      [addStandardIdentifiers (setField (setField []
                        "_record_id" (.strV (generateRecordId sr t2))) f cv)
                        sr t2]
                      else st.data t2).get? j = _
                  rw [if_pos rfl, ← hlen]
                  exact List.get?_concat_length _ _
                · have hlk3 : st.lookup t2 k = some j := by
                    have h5 : (if t2 = tbl ∧ k = generateRecordId sr tbl
                        then some (st.data tbl).length
                        else st.lookup t2 k) = some j := hlk2
                    rwa [if_neg hcond] at h5
                  obtain ⟨r2, hr2, hp2⟩ := (hinv t2 k j).mp hlk3
                  refine ⟨r2, ?_, hp2⟩
                  show (if t2 = tbl then st.data tbl ++
                      [addStandardIdentifiers (setField (setField []
                        "_record_id" (.strV (generateRecordId sr tbl))) f cv)
                        sr tbl]
                      else st.data t2).get? j = _
                  by_cases ht : t2 = tbl
                  · subst ht
                    rw [if_pos rfl]
                    have hjlt : j < (st.data t2).length := by
                      by_contra hcon
                      rw [List.get?_eq_none.mpr (Nat.le_of_not_lt hcon)] at hr2
                      cases hr2
                    rw [List.get?_append hjlt]
                    exact hr2
                  · rw [if_neg ht]
                    exact hr2
              · rintro ⟨r2, hr2, hp2⟩
                have hr2b : (if t2 = tbl then st.data tbl ++
                    [addStandardIdentifiers (setField (setField []
                      "_record_id" (.strV (generateRecordId sr tbl))) f cv)
                      sr tbl]
                    else st.data t2).get? j = some r2 := hr2
                show (if t2 = tbl ∧ k = generateRecordId sr tbl
                    then some (st.data tbl).length
                    else st.lookup t2 k) = some j
                by_cases ht : t2 = tbl
                · subst ht
                  rw [if_pos rfl] at hr2b
                  by_cases hj : j < (st.data t2).length
                  · rw [List.get?_append hj] at hr2b
                    have hold : st.lookup t2 k = some j :=
                      (hinv t2 k j).mpr ⟨r2, hr2b, hp2⟩
                    have hkne : ¬(t2 = t2 ∧ k = generateRecordId sr t2) := by
                      rintro ⟨-, hk⟩
                      subst hk
                      rw [hold] at heqlk
                      cases heqlk
                    rw [if_neg hkne]
                    exact hold
                  · have hj2 : (st.data t2).length ≤ j := Nat.le_of_not_lt hj
                    rw [List.get?_append_right hj2] at hr2b
                    cases hje : j - (st.data t2).length with
                    | zero =>
                      rw [hje] at hr2b
                      injection hr2b with hr3
                      rw [← hr3] at hp2
                      rw [hnewrid] at hp2
                      injection hp2 with hp3
                      injection hp3 with hp4
                      have hjeq : j = (st.data t2).length :=
                        Nat.le_antisymm
                          (Nat.le_of_sub_eq_zero hje) hj2
                      rw [if_pos ⟨rfl, hp4.symm⟩, hjeq]
                    | succ n =>
                      rw [hje] at hr2b
                      simp at hr2b
                · rw [if_neg ht] at hr2b
                  have hold : st.lookup t2 k = some j :=
                    (hinv t2 k j).mpr ⟨r2, hr2b, hp2⟩
                  have hkne : ¬(t2 = tbl ∧ k = generateRecordId sr tbl) := by
                    rintro ⟨hc, -⟩
                    exact ht hc
                  rw [if_neg hkne]
                  exact hold

/-- C10, witness: the invariant holds after applying the scenario's
date rule — whose target field is not `_record_id` — to the fresh state. -/
theorem c10_witness :
    LookupInvariant (stepRule (standardizeFieldNames c1Rec)
      EtlState.empty c1Rule2) :=
  c10_amended.2 EtlState.empty c1Rule2 (standardizeFieldNames c1Rec)
    c10_amended.1 (show c1Rule2.omop_field ≠ some "_record_id" from by decide)

/-! ## Claim C3: idempotence of the merge -/

theorem setField_collapse (r : Record) (f : String) (a b : Value) :
    setField (setField r f a) f b = setField r f b := by
  induction r with
  | nil => simp [setField]
  | cons p rest ih =>
    obtain ⟨g, w⟩ := p
    by_cases h : g = f
    · subst h; simp [setField]
    · simp [setField, h, ih]

theorem mem_keysOf_setField (r : Record) (f g : String) (v : Value)
    (h : g ∈ keysOf r ∨ g = f) : g ∈ keysOf (setField r f v) := by
  induction r with
  | nil =>
    rcases h with h | h
    · simp [keysOf] at h
    · subst h; simp [setField, keysOf]
  | cons p rest ih =>
    obtain ⟨g2, w⟩ := p
    by_cases h2 : g2 = f
    · subst h2
      rcases h with h | h
      · simpa [setField, keysOf] using (by simpa [keysOf] using h :
          g = g2 ∨ g ∈ keysOf rest)
      · subst h; simp [setField, keysOf]
    · rcases h with h | h
      · rcases (by simpa [keysOf] using h : g = g2 ∨ g ∈ keysOf rest) with h3 | h3
        · subst h3; simp [setField, h2, keysOf]
        · simp only [setField, if_neg h2, keysOf, List.map_cons, List.mem_cons]
          exact Or.inr (by simpa [keysOf] using ih (Or.inl h3))
      · simp only [setField, if_neg h2, keysOf, List.map_cons, List.mem_cons]
        exact Or.inr (by simpa [keysOf] using ih (Or.inr h))

theorem setField_comm_of_mem (r : Record) (f g : String) (a b : Value)
    (hne : f ≠ g) (hf : f ∈ keysOf r) :
    setField (setField r f a) g b = setField (setField r g b) f a := by
  induction r with
  | nil => simp [keysOf] at hf
  | cons p rest ih =>
    obtain ⟨g2, w⟩ := p
    by_cases h2 : g2 = f
    · subst h2
      simp [setField, hne, Ne.symm hne]
    · by_cases h3 : g2 = g
      · subst h3
        simp [setField, h2, hne, Ne.symm hne]
      · have hf2 : f ∈ keysOf rest := by
          rcases (by simpa [keysOf] using hf : f = g2 ∨ f ∈ keysOf rest) with h | h
          · exact absurd h.symm h2
          · exact h
        simp [setField, h2, h3, ih hf2]

theorem setFields_append (r : Record) (ws1 ws2 : List (String × Value)) :
    setFields r (ws1 ++ ws2) = setFields (setFields r ws1) ws2 := by
  simp [setFields, List.foldl_append]

theorem setField_eq_self (r : Record) (f : String) (v : Value)
    (h : getField? r f = some v) : setField r f v = r := by
  induction r with
  | nil => simp [getField?] at h
  | cons p rest ih =>
    obtain ⟨g, w⟩ := p
    by_cases h2 : g = f
    · subst h2
      have hw : w = v := by simpa [getField?] using h
      subst hw
      simp [setField]
    · simp only [getField?, if_neg h2] at h
      simp [setField, h2, ih h]

theorem dropFields_dropFields (f : String) (F : List String)
    (ws : List (String × Value)) :
    dropFields [f] (dropFields F ws) = dropFields (f :: F) ws := by
  induction ws with
  | nil => rfl
  | cons p ws' ih =>
    simp only [dropFields, List.filter_cons] at ih ⊢
    by_cases h1 : p.1 = f <;> by_cases h2 : F.contains p.1 = true <;>
      simp_all [List.contains_cons, beq_iff_eq]

theorem setFields_push (vs : List (String × Value)) (r : Record) (f : String)
    (a : Value) (hf : f ∈ keysOf r) :
    setFields r (vs ++ [(f, a)]) =
      setFields (setField r f a) (dropFields [f] vs) := by
  induction vs generalizing r with
  | nil => simp [setFields, dropFields]
  | cons p vs' ih =>
    obtain ⟨g, b⟩ := p
    by_cases hg : g = f
    · subst hg
      have hd : dropFields [g] ((g, b) :: vs') = dropFields [g] vs' := by
        simp [dropFields]
      rw [hd, List.cons_append]
      have h1 : setFields r ((g, b) :: (vs' ++ [(g, a)])) =
          setFields (setField r g b) (vs' ++ [(g, a)]) := rfl
      rw [h1, ih (setField r g b) (mem_keysOf_setField _ _ _ _ (Or.inr rfl)),
        setField_collapse]
    · have hd : dropFields [f] ((g, b) :: vs') =
          (g, b) :: dropFields [f] vs' := by
        simp [dropFields, hg]
      rw [hd, List.cons_append]
      have h1 : setFields r ((g, b) :: (vs' ++ [(f, a)])) =
          setFields (setField r g b) (vs' ++ [(f, a)]) := rfl
      rw [h1, ih (setField r g b) (mem_keysOf_setField _ _ _ _ (Or.inl hf))]
      have h2 : setFields (setField r f a) ((g, b) :: dropFields [f] vs') =
          setFields (setField (setField r f a) g b) (dropFields [f] vs') := rfl
      rw [h2, ← setField_comm_of_mem r f g a b (fun he => hg he.symm) hf]

theorem setFields_absorb_aux (ws : List (String × Value)) (F : List String)
    (r : Record) (hF : ∀ h ∈ F, h ∈ keysOf r) :
    setFields (setFields r (dropFields F ws)) ws = setFields r ws := by
  induction ws generalizing F r with
  | nil => simp [setFields, dropFields]
  | cons p ws' ih =>
    obtain ⟨f, a⟩ := p
    have hFnext : ∀ h ∈ f :: F, h ∈ keysOf (setField r f a) := by
      intro h hh
      rcases List.mem_cons.mp hh with h2 | h2
      · subst h2; exact mem_keysOf_setField _ _ _ _ (Or.inr rfl)
      · exact mem_keysOf_setField _ _ _ _ (Or.inl (hF h h2))
    by_cases hf : F.contains f = true
    · have hmemF : f ∈ F := List.mem_of_elem_eq_true hf
      have hkey : f ∈ keysOf r := hF f hmemF
      have hd : dropFields F ((f, a) :: ws') = dropFields F ws' := by
        simp [dropFields, List.filter_cons, hmemF]
      rw [hd]
      have h1 : setFields (setFields r (dropFields F ws')) ((f, a) :: ws') =
          setFields (setField (setFields r (dropFields F ws')) f a) ws' := rfl
      rw [h1]
      have h2 : setField (setFields r (dropFields F ws')) f a =
          setFields (setField r f a) (dropFields (f :: F) ws') := by
        have h3 := setFields_push (dropFields F ws') r f a hkey
        rw [setFields_append, dropFields_dropFields] at h3
        exact h3
      rw [h2]
      have h4 : setFields r ((f, a) :: ws') =
          setFields (setField r f a) ws' := rfl
      rw [h4]
      exact ih (f :: F) (setField r f a) hFnext
    · have hmemF : f ∉ F := fun hc => hf (List.elem_iff.mpr hc)
      have hd : dropFields F ((f, a) :: ws') =
          (f, a) :: dropFields F ws' := by
        simp [dropFields, List.filter_cons, hmemF]
      rw [hd]
      have h1 : setFields r ((f, a) :: dropFields F ws') =
          setFields (setField r f a) (dropFields F ws') := rfl
      have h2 : setFields (setFields (setField r f a) (dropFields F ws'))
          ((f, a) :: ws') =
          setFields (setField (setFields (setField r f a) (dropFields F ws'))
            f a) ws' := rfl
      rw [h1, h2]
      have h3 : setField (setFields (setField r f a) (dropFields F ws')) f a =
          setFields (setField r f a) (dropFields (f :: F) ws') := by
        have h4 := setFields_push (dropFields F ws') (setField r f a) f a
          (mem_keysOf_setField _ _ _ _ (Or.inr rfl))
        rw [setFields_append, dropFields_dropFields, setField_collapse] at h4
        exact h4
      rw [h3]
      have h5 : setFields r ((f, a) :: ws') =
          setFields (setField r f a) ws' := rfl
      rw [h5]
      exact ih (f :: F) (setField r f a) hFnext

theorem setFields_absorb (r : Record) (ws : List (String × Value)) :
    setFields (setFields r ws) ws = setFields r ws := by
  have h := setFields_absorb_aux ws [] r (by intro x hx; cases hx)
  have hd : dropFields [] ws = ws := by simp [dropFields]
  rwa [hd] at h

theorem addStdIds_eq_setFields (r : Record) (sr : SourceRecord) (t : String) :
    addStandardIdentifiers r sr t = setFields r (injWrites sr t) := by
  simp only [addStandardIdentifiers, injWrites]
  split_ifs <;> rfl

theorem injWrites_fields (sr : SourceRecord) (t : String) :
    ∀ p ∈ injWrites sr t, p.1 = "person_id" ∨ p.1 = "visit_occurrence_id" := by
  intro p hp
  simp only [injWrites] at hp
  split_ifs at hp <;> aesop

theorem stepRule_eq_none (sr : SourceRecord) (st : EtlState) (m : Rule)
    (h : ruleEffect sr m = none) : stepRule sr st m = st := by
  simp only [ruleEffect] at h
  simp only [stepRule, applyMappingOpt]
  split_ifs at h ⊢ with hg
  · rfl
  · split at h
    · rfl
    · split at h
      · rfl
      · split at h
        · rfl
        · cases h

theorem stepRule_eq_some (sr : SourceRecord) (st : EtlState) (m : Rule)
    (t f : String) (cv : Value) (h : ruleEffect sr m = some (t, f, cv)) :
    stepRule sr st m = applyEffect sr t f cv st := by
  simp only [ruleEffect] at h
  simp only [stepRule, applyMappingOpt]
  split_ifs at h ⊢ with hg
  split at h
  · cases h
  · split at h
    · cases h
    · split at h
      · cases h
      · next t2 heqt =>
        simp only [Option.some.injEq, Prod.mk.injEq] at h
        obtain ⟨h1, h2, h3⟩ := h
        rw [← h1, ← h2, ← h3]
        simp only [applyEffect]
        split
        · next i heqlk =>
          simp only [updateRecordAt]
          cases hget : (st.data t2).get? i with
          | none => rfl
          | some r => rfl
        · next heqlk => rfl

theorem lookup_persists_step (sr : SourceRecord) (st : EtlState) (m : Rule)
    (t k : String) (i : Nat) (h : st.lookup t k = some i) :
    (stepRule sr st m).lookup t k = some i := by
  cases heff : ruleEffect sr m with
  | none =>
    rw [stepRule_eq_none sr st m heff]
    exact h
  | some x =>
    obtain ⟨t0, f, cv⟩ := x
    rw [stepRule_eq_some sr st m t0 f cv heff]
    simp only [applyEffect]
    split
    · next j heqlk =>
      split
      · exact h
      · exact h
    · next heqlk =>
      show (if t = t0 ∧ k = generateRecordId sr t0
        then some (st.data t0).length else st.lookup t k) = some i
      by_cases hc : t = t0 ∧ k = generateRecordId sr t0
      · obtain ⟨h1, h2⟩ := hc
        subst h1
        subst h2
        rw [h] at heqlk
        cases heqlk
      · rw [if_neg hc]
        exact h

theorem lookup_persists_pass (sr : SourceRecord) (ms : List Rule)
    (st : EtlState) (t k : String) (i : Nat) (h : st.lookup t k = some i) :
    (passRules sr ms st).lookup t k = some i := by
  induction ms generalizing st with
  | nil => exact h
  | cons m ms' ih => exact ih _ (lookup_persists_step sr st m t k i h)

theorem key_stable_step (sr : SourceRecord) (st : EtlState) (m : Rule)
    (t : String) (j : Nat)
    (h : st.lookup t (generateRecordId sr t) = some j) :
    ((stepRule sr st m).data t).length = (st.data t).length ∧
    (stepRule sr st m).lookup t (generateRecordId sr t) = some j := by
  refine ⟨?_, lookup_persists_step sr st m t _ j h⟩
  cases heff : ruleEffect sr m with
  | none => rw [stepRule_eq_none sr st m heff]
  | some x =>
    obtain ⟨t0, f, cv⟩ := x
    rw [stepRule_eq_some sr st m t0 f cv heff]
    simp only [applyEffect]
    split
    · next i heqlk =>
      split
      · rfl
      · next r heqget =>
        show (if t = t0 then (st.data t0).set i (setField r f cv)
          else st.data t).length = _
        by_cases ht : t = t0
        · subst ht
          rw [if_pos rfl, List.length_set]
        · rw [if_neg ht]
    · next heqlk =>
      show (if t = t0 then st.data t0 ++ [addStandardIdentifiers
        (setField (setField [] "_record_id"
          (.strV (generateRecordId sr t0))) f cv) sr t0]
        else st.data t).length = _
      by_cases ht : t = t0
      · subst ht
        rw [h] at heqlk
        cases heqlk
      · rw [if_neg ht]

theorem key_stable_pass (sr : SourceRecord) (ms : List Rule) (st : EtlState)
    (t : String) (j : Nat)
    (h : st.lookup t (generateRecordId sr t) = some j) :
    ((passRules sr ms st).data t).length = (st.data t).length := by
  induction ms generalizing st with
  | nil => rfl
  | cons m ms' ih =>
    have h2 := key_stable_step sr st m t j h
    exact (ih _ h2.2).trans h2.1

theorem applyEffect_key (sr : SourceRecord) (t f : String) (cv : Value)
    (st : EtlState) :
    ∃ i, (applyEffect sr t f cv st).lookup t (generateRecordId sr t) = some i := by
  simp only [applyEffect]
  split
  · next i heqlk =>
    split
    · exact ⟨i, heqlk⟩
    · exact ⟨i, heqlk⟩
  · next heqlk =>
    refine ⟨(st.data t).length, ?_⟩
    show (if t = t ∧ generateRecordId sr t = generateRecordId sr t
      then some (st.data t).length
      else st.lookup t (generateRecordId sr t)) = some (st.data t).length
    rw [if_pos ⟨rfl, rfl⟩]

theorem keysPresent_pass (sr : SourceRecord) (ms : List Rule) (st : EtlState) :
    KeysPresent sr ms (passRules sr ms st) := by
  induction ms generalizing st with
  | nil => intro m hm; cases hm
  | cons m ms' ih =>
    intro m2 hm2 x heff
    rcases List.mem_cons.mp hm2 with h | h
    · subst h
      obtain ⟨t0, f, cv⟩ := x
      have hstep : ∃ i, (stepRule sr st m2).lookup t0
          (generateRecordId sr t0) = some i := by
        rw [stepRule_eq_some sr st m2 t0 f cv heff]
        exact applyEffect_key sr t0 f cv st
      obtain ⟨i, hi⟩ := hstep
      exact ⟨i, lookup_persists_pass sr ms' _ t0 _ i hi⟩
    · exact ih (stepRule sr st m) m2 h x heff

theorem writesForL_congr (sr : SourceRecord)
    (L L2 : String → String → Option Nat) (ms : List Rule) (t : String)
    (i : Nat) (h : ∀ t2 k, L t2 k = L2 t2 k) :
    writesForL sr L ms t i = writesForL sr L2 ms t i := by
  simp only [writesForL]
  apply List.filterMap_congr
  intro m hm
  cases heff : ruleEffect sr m with
  | none => rfl
  | some x =>
    show (if x.1 = t ∧ L x.1 (generateRecordId sr x.1) = some i
        then some (x.2.1, x.2.2) else none) =
      (if x.1 = t ∧ L2 x.1 (generateRecordId sr x.1) = some i
        then some (x.2.1, x.2.2) else none)
    rw [h x.1 (generateRecordId sr x.1)]

theorem passRules_cons (sr : SourceRecord) (m : Rule) (ms : List Rule)
    (st : EtlState) :
    passRules sr (m :: ms) st = passRules sr ms (stepRule sr st m) := rfl

theorem get?_some_lt {A : Type} (l : List A) (n : Nat) (a : A)
    (h : l.get? n = some a) : n < l.length := by
  by_contra hc
  rw [List.get?_eq_none.mpr (Nat.le_of_not_lt hc)] at h
  cases h

theorem etlState_eq (a b : EtlState) (h1 : a.data = b.data)
    (h2 : a.lookup = b.lookup) : a = b := by
  cases a
  cases b
  cases h1
  cases h2
  rfl

theorem ruleEffect_omop_field (sr : SourceRecord) (m : Rule)
    (t f : String) (cv : Value) (h : ruleEffect sr m = some (t, f, cv)) :
    m.omop_field = some f := by
  simp only [ruleEffect] at h
  split_ifs at h
  split at h
  · cases h
  · next f2 heqf =>
    split at h
    · cases h
    · next cv2 heqcv =>
      split at h
      · cases h
      · next t2 heqt =>
        simp only [Option.some.injEq, Prod.mk.injEq] at h
        rw [heqf, h.2.1]

theorem writesForL_cons_none (sr : SourceRecord)
    (L : String → String → Option Nat) (m : Rule) (ms : List Rule)
    (t : String) (i : Nat) (h : ruleEffect sr m = none) :
    writesForL sr L (m :: ms) t i = writesForL sr L ms t i := by
  simp only [writesForL, List.filterMap_cons, h]

theorem writesForL_cons_pos (sr : SourceRecord)
    (L : String → String → Option Nat) (m : Rule) (ms : List Rule)
    (t : String) (i : Nat) (t0 f : String) (cv : Value)
    (h : ruleEffect sr m = some (t0, f, cv)) (h1 : t0 = t)
    (h2 : L t0 (generateRecordId sr t0) = some i) :
    writesForL sr L (m :: ms) t i = (f, cv) :: writesForL sr L ms t i := by
  simp only [writesForL, List.filterMap_cons, h]
  rw [if_pos ⟨h1, h2⟩]

theorem writesForL_cons_neg (sr : SourceRecord)
    (L : String → String → Option Nat) (m : Rule) (ms : List Rule)
    (t : String) (i : Nat) (t0 f : String) (cv : Value)
    (h : ruleEffect sr m = some (t0, f, cv))
    (hneg : ¬(t0 = t ∧ L t0 (generateRecordId sr t0) = some i)) :
    writesForL sr L (m :: ms) t i = writesForL sr L ms t i := by
  simp only [writesForL, List.filterMap_cons, h]
  rw [if_neg hneg]

theorem stepRule_present_char (sr : SourceRecord) (st : EtlState) (m : Rule)
    (t0 f : String) (cv : Value) (heff : ruleEffect sr m = some (t0, f, cv))
    (i0 : Nat) (hlk : st.lookup t0 (generateRecordId sr t0) = some i0) :
    (∀ t k, (stepRule sr st m).lookup t k = st.lookup t k) ∧
    (∀ t, ((stepRule sr st m).data t).length = (st.data t).length) ∧
    (∀ t j r, (st.data t).get? j = some r →
      ((stepRule sr st m).data t).get? j =
        some (if t = t0 ∧ j = i0 then setField r f cv else r)) := by
  rw [stepRule_eq_some sr st m t0 f cv heff]
  simp only [applyEffect]
  split
  · next i heqlk =>
    have hii : i = i0 := by
      rw [hlk] at heqlk
      exact (Option.some.inj heqlk).symm
    rw [hii]
    split
    · next heqget =>
      refine ⟨fun t k => rfl, fun t => rfl, ?_⟩
      intro t j r hr
      by_cases hc : t = t0 ∧ j = i0
      · obtain ⟨h1, h2⟩ := hc
        subst h1
        subst h2
        rw [heqget] at hr
        cases hr
      · rw [if_neg hc]
        exact hr
    · next r0 heqget =>
      refine ⟨fun t k => rfl, ?_, ?_⟩
      · intro t
        show (if t = t0 then (st.data t0).set i0 (setField r0 f cv)
          else st.data t).length = (st.data t).length
        by_cases ht : t = t0
        · subst ht
          rw [if_pos rfl, List.length_set]
        · rw [if_neg ht]
      · intro t j r hr
        show (if t = t0 then (st.data t0).set i0 (setField r0 f cv)
          else st.data t).get? j = _
        by_cases ht : t = t0
        · subst ht
          rw [if_pos rfl]
          by_cases hj : j = i0
          · subst hj
            rw [List.get?_set_eq]
            rw [hr] at heqget
            rw [hr, Option.some.inj heqget, if_pos ⟨rfl, rfl⟩]
            rfl
          · rw [List.get?_set_ne]
            · rw [if_neg (fun hc => hj hc.2)]
              exact hr
            · exact fun hc => hj hc.symm
        · rw [if_neg ht, if_neg (fun hc : t = t0 ∧ j = i0 => ht hc.1)]
          exact hr
  · next heqlk =>
    rw [hlk] at heqlk
    cases heqlk

theorem stepRule_create_char (sr : SourceRecord) (st : EtlState) (m : Rule)
    (t0 f : String) (cv : Value) (heff : ruleEffect sr m = some (t0, f, cv))
    (hlk0 : st.lookup t0 (generateRecordId sr t0) = none) :
    stepRule sr st m =
      ⟨fun t2 => if t2 = t0 then st.data t0 ++
          [addStandardIdentifiers (setField (setField [] "_record_id"
            (Value.strV (generateRecordId sr t0))) f cv) sr t0]
        else st.data t2,
       fun t2 k => if t2 = t0 ∧ k = generateRecordId sr t0
        then some (st.data t0).length else st.lookup t2 k⟩ := by
  rw [stepRule_eq_some sr st m t0 f cv heff]
  simp only [applyEffect]
  split
  · next i heqlk =>
    rw [hlk0] at heqlk
    cases heqlk
  · next heqlk => rfl

theorem stepRule_create_props (sr : SourceRecord) (st : EtlState) (m : Rule)
    (t0 f : String) (cv : Value) (heff : ruleEffect sr m = some (t0, f, cv))
    (hlk0 : st.lookup t0 (generateRecordId sr t0) = none) :
    ((stepRule sr st m).lookup t0 (generateRecordId sr t0) =
      some (st.data t0).length) ∧
    (∀ t k, ¬(t = t0 ∧ k = generateRecordId sr t0) →
      (stepRule sr st m).lookup t k = st.lookup t k) ∧
    ((stepRule sr st m).data t0 = st.data t0 ++
      [addStandardIdentifiers (setField (setField [] "_record_id"
        (Value.strV (generateRecordId sr t0))) f cv) sr t0]) ∧
    (∀ t, t ≠ t0 → (stepRule sr st m).data t = st.data t) := by
  rw [stepRule_create_char sr st m t0 f cv heff hlk0]
  refine ⟨?_, ?_, ?_, ?_⟩
  · show (if t0 = t0 ∧ generateRecordId sr t0 = generateRecordId sr t0
      then some (st.data t0).length
      else st.lookup t0 (generateRecordId sr t0)) = some (st.data t0).length
    rw [if_pos ⟨rfl, rfl⟩]
  · intro t k hc
    show (if t = t0 ∧ k = generateRecordId sr t0
      then some (st.data t0).length else st.lookup t k) = st.lookup t k
    rw [if_neg hc]
  · show (if t0 = t0 then _ else st.data t0) = _
    rw [if_pos rfl]
  · intro t ht
    show (if t = t0 then _ else st.data t) = st.data t
    rw [if_neg ht]

theorem keysPresent_tail (sr : SourceRecord) (m : Rule) (ms : List Rule)
    (st st2 : EtlState) (hKP : KeysPresent sr (m :: ms) st)
    (h : ∀ t k, st2.lookup t k = st.lookup t k) :
    KeysPresent sr ms st2 := by
  intro m2 hm2 x hx
  obtain ⟨i, hi⟩ := hKP m2 (List.mem_cons_of_mem m hm2) x hx
  exact ⟨i, (h x.1 (generateRecordId sr x.1)).trans hi⟩

theorem pass_lookup (sr : SourceRecord) (ms : List Rule) (st : EtlState)
    (hKP : KeysPresent sr ms st) :
    ∀ t k, (passRules sr ms st).lookup t k = st.lookup t k := by
  induction ms generalizing st with
  | nil => intro t k; rfl
  | cons m ms' ih =>
    intro t k
    rw [passRules_cons]
    cases heff : ruleEffect sr m with
    | none =>
      rw [stepRule_eq_none sr st m heff]
      exact ih st (keysPresent_tail sr m ms' st st hKP (fun _ _ => rfl)) t k
    | some x =>
      obtain ⟨t0, f, cv⟩ := x
      obtain ⟨i0, hlk0⟩ := hKP m (List.mem_cons_self m ms') (t0, f, cv) heff
      have hlk0' : st.lookup t0 (generateRecordId sr t0) = some i0 := hlk0
      have hchar := stepRule_present_char sr st m t0 f cv heff i0 hlk0'
      rw [ih (stepRule sr st m)
        (keysPresent_tail sr m ms' st _ hKP hchar.1) t k]
      exact hchar.1 t k

theorem pass_length (sr : SourceRecord) (ms : List Rule) (st : EtlState)
    (hKP : KeysPresent sr ms st) :
    ∀ t, ((passRules sr ms st).data t).length = (st.data t).length := by
  induction ms generalizing st with
  | nil => intro t; rfl
  | cons m ms' ih =>
    intro t
    rw [passRules_cons]
    cases heff : ruleEffect sr m with
    | none =>
      rw [stepRule_eq_none sr st m heff]
      exact ih st (keysPresent_tail sr m ms' st st hKP (fun _ _ => rfl)) t
    | some x =>
      obtain ⟨t0, f, cv⟩ := x
      obtain ⟨i0, hlk0⟩ := hKP m (List.mem_cons_self m ms') (t0, f, cv) heff
      have hlk0' : st.lookup t0 (generateRecordId sr t0) = some i0 := hlk0
      have hchar := stepRule_present_char sr st m t0 f cv heff i0 hlk0'
      rw [ih (stepRule sr st m)
        (keysPresent_tail sr m ms' st _ hKP hchar.1) t]
      exact hchar.2.1 t

theorem pass_data (sr : SourceRecord) (ms : List Rule) (st : EtlState)
    (hKP : KeysPresent sr ms st) :
    ∀ t j r, (st.data t).get? j = some r →
      ((passRules sr ms st).data t).get? j =
        some (if st.lookup t (generateRecordId sr t) = some j
          then setFields r (writesForL sr st.lookup ms t j) else r) := by
  induction ms generalizing st with
  | nil =>
    intro t j r hr
    by_cases hc : st.lookup t (generateRecordId sr t) = some j
    · rw [if_pos hc]
      exact hr
    · rw [if_neg hc]
      exact hr
  | cons m ms' ih =>
    intro t j r hr
    rw [passRules_cons]
    cases heff : ruleEffect sr m with
    | none =>
      rw [stepRule_eq_none sr st m heff,
        writesForL_cons_none sr st.lookup m ms' t j heff]
      exact ih st (keysPresent_tail sr m ms' st st hKP (fun _ _ => rfl)) t j r hr
    | some x =>
      obtain ⟨t0, f, cv⟩ := x
      obtain ⟨i0, hlk0⟩ := hKP m (List.mem_cons_self m ms') (t0, f, cv) heff
      have hlk0' : st.lookup t0 (generateRecordId sr t0) = some i0 := hlk0
      have hchar := stepRule_present_char sr st m t0 f cv heff i0 hlk0'
      have hr' := hchar.2.2 t j r hr
      have hih := ih (stepRule sr st m)
        (keysPresent_tail sr m ms' st _ hKP hchar.1) t j _ hr'
      rw [hih]
      congr 1
      have hWeq : writesForL sr (stepRule sr st m).lookup ms' t j =
          writesForL sr st.lookup ms' t j :=
        writesForL_congr sr _ _ ms' t j hchar.1
      by_cases hcond : st.lookup t (generateRecordId sr t) = some j
      · have hcond' : (stepRule sr st m).lookup t (generateRecordId sr t) =
            some j := by
          rw [hchar.1]
          exact hcond
        rw [if_pos hcond', if_pos hcond, hWeq]
        by_cases hc : t = t0 ∧ j = i0
        · rw [if_pos hc]
          have h2 : st.lookup t0 (generateRecordId sr t0) = some j := by
            rw [hc.2]
            exact hlk0'
          rw [writesForL_cons_pos sr st.lookup m ms' t j t0 f cv heff
            hc.1.symm h2]
          rfl
        · rw [if_neg hc]
          have hnegc : ¬(t0 = t ∧
              st.lookup t0 (generateRecordId sr t0) = some j) := by
            rintro ⟨e1, e2⟩
            rw [hlk0'] at e2
            exact hc ⟨e1.symm, (Option.some.inj e2).symm⟩
          rw [writesForL_cons_neg sr st.lookup m ms' t j t0 f cv heff hnegc]
      · have hcond' : ¬((stepRule sr st m).lookup t (generateRecordId sr t) =
            some j) := by
          rw [hchar.1]
          exact hcond
        rw [if_neg hcond', if_neg hcond]
        have hc : ¬(t = t0 ∧ j = i0) := by
          rintro ⟨e1, e2⟩
          rw [e1, e2] at hcond
          exact hcond hlk0'
        rw [if_neg hc]

theorem pass_shape (sr : SourceRecord) (ms : List Rule) :
    ∀ st : EtlState, (∀ m ∈ ms, RuleAvoidsInjected m) → Valid st →
    ∀ t i, (passRules sr ms st).lookup t (generateRecordId sr t) = some i →
    ((∀ r0, st.lookup t (generateRecordId sr t) = some i →
        (st.data t).get? i = some r0 →
        ((passRules sr ms st).data t).get? i =
          some (setFields r0
            (writesForL sr (passRules sr ms st).lookup ms t i))) ∧
      (st.lookup t (generateRecordId sr t) = none →
        ∃ base, ((passRules sr ms st).data t).get? i =
          some (setFields base
            (writesForL sr (passRules sr ms st).lookup ms t i)))) := by
  induction ms with
  | nil =>
    intro st hA hV t i hlk
    constructor
    · intro r0 h1 h2
      exact h2
    · intro h1
      have hlk' : st.lookup t (generateRecordId sr t) = some i := hlk
      rw [h1] at hlk'
      cases hlk'
  | cons m ms' ih =>
    intro st hA hV t i hlk
    rw [passRules_cons] at hlk
    have hAtail : ∀ m2 ∈ ms', RuleAvoidsInjected m2 :=
      fun m2 hm2 => hA m2 (List.mem_cons_of_mem m hm2)
    cases heff : ruleEffect sr m with
    | none =>
      rw [stepRule_eq_none sr st m heff] at hlk
      have hmain := ih st hAtail hV t i hlk
      constructor
      · intro r0 h1 h2
        rw [passRules_cons, stepRule_eq_none sr st m heff,
          writesForL_cons_none sr _ m ms' t i heff]
        exact hmain.1 r0 h1 h2
      · intro h1
        obtain ⟨base, hbase⟩ := hmain.2 h1
        refine ⟨base, ?_⟩
        rw [passRules_cons, stepRule_eq_none sr st m heff,
          writesForL_cons_none sr _ m ms' t i heff]
        exact hbase
    | some x =>
      obtain ⟨t0, f, cv⟩ := x
      have hrule : RuleAvoidsInjected m := hA m (List.mem_cons_self m ms')
      have hof := ruleEffect_omop_field sr m t0 f cv heff
      have hf1 : f ≠ "person_id" := by
        intro hc
        exact hrule.1 (by rw [hof, hc])
      have hf2 : f ≠ "visit_occurrence_id" := by
        intro hc
        exact hrule.2 (by rw [hof, hc])
      cases hlk0 : st.lookup t0 (generateRecordId sr t0) with
      | some i0 =>
        have hchar := stepRule_present_char sr st m t0 f cv heff i0 hlk0
        have hV' : Valid (stepRule sr st m) := by
          intro t2 k j hj
          rw [hchar.1 t2 k] at hj
          obtain ⟨r2, hr2⟩ := hV t2 k j hj
          exact ⟨_, hchar.2.2 t2 j r2 hr2⟩
        have hmain := ih (stepRule sr st m) hAtail hV' t i hlk
        have hLf0 : (passRules sr ms' (stepRule sr st m)).lookup t0
            (generateRecordId sr t0) = some i0 := by
          apply lookup_persists_pass
          rw [hchar.1]
          exact hlk0
        constructor
        · intro r0 h1 h2
          have h1' : (stepRule sr st m).lookup t (generateRecordId sr t) =
              some i := by
            rw [hchar.1]
            exact h1
          have h2' := hchar.2.2 t i r0 h2
          have hgoal := hmain.1 _ h1' h2'
          rw [passRules_cons]
          by_cases hc : t = t0 ∧ i = i0
          · have hpos2 : (passRules sr ms' (stepRule sr st m)).lookup t0
                (generateRecordId sr t0) = some i := by
              rw [hLf0, hc.2]
            rw [writesForL_cons_pos sr _ m ms' t i t0 f cv heff
              hc.1.symm hpos2]
            rw [if_pos hc] at hgoal
            exact hgoal
          · have hneg : ¬(t0 = t ∧
                (passRules sr ms' (stepRule sr st m)).lookup t0
                  (generateRecordId sr t0) = some i) := by
              rintro ⟨e1, e2⟩
              rw [hLf0] at e2
              exact hc ⟨e1.symm, (Option.some.inj e2).symm⟩
            rw [writesForL_cons_neg sr _ m ms' t i t0 f cv heff hneg]
            rw [if_neg hc] at hgoal
            exact hgoal
        · intro h1
          have hne : t ≠ t0 := by
            intro e
            rw [e, hlk0] at h1
            cases h1
          have h1' : (stepRule sr st m).lookup t (generateRecordId sr t) =
              none := by
            rw [hchar.1]
            exact h1
          obtain ⟨base, hbase⟩ := hmain.2 h1'
          refine ⟨base, ?_⟩
          rw [passRules_cons]
          rw [writesForL_cons_neg sr _ m ms' t i t0 f cv heff
            (fun hc => hne hc.1.symm)]
          exact hbase
      | none =>
        have hcp := stepRule_create_props sr st m t0 f cv heff hlk0
        have hV' : Valid (stepRule sr st m) := by
          intro t2 k j hj
          by_cases hc : t2 = t0 ∧ k = generateRecordId sr t0
          · refine ⟨addStandardIdentifiers (setField (setField [] "_record_id"
              (Value.strV (generateRecordId sr t0))) f cv) sr t0, ?_⟩
            rw [hc.1, hc.2, hcp.1] at hj
            rw [hc.1, hcp.2.2.1, ← Option.some.inj hj]
            exact List.get?_concat_length _ _
          · rw [hcp.2.1 t2 k hc] at hj
            obtain ⟨r2, hr2⟩ := hV t2 k j hj
            by_cases ht : t2 = t0
            · subst ht
              refine ⟨r2, ?_⟩
              rw [hcp.2.2.1, List.get?_append (get?_some_lt _ _ _ hr2)]
              exact hr2
            · rw [hcp.2.2.2 t2 ht]
              exact ⟨r2, hr2⟩
        have hmain := ih (stepRule sr st m) hAtail hV' t i hlk
        have hLf0 : (passRules sr ms' (stepRule sr st m)).lookup t0
            (generateRecordId sr t0) = some (st.data t0).length :=
          lookup_persists_pass sr ms' _ t0 _ _ hcp.1
        constructor
        · intro r0 h1 h2
          have hne : t ≠ t0 := by
            intro e
            rw [e, hlk0] at h1
            cases h1
          have h1' : (stepRule sr st m).lookup t (generateRecordId sr t) =
              some i := by
            rw [hcp.2.1 t _ (fun hc => hne hc.1)]
            exact h1
          have h2' : ((stepRule sr st m).data t).get? i = some r0 := by
            rw [hcp.2.2.2 t hne]
            exact h2
          have hgoal := hmain.1 r0 h1' h2'
          rw [passRules_cons]
          rw [writesForL_cons_neg sr _ m ms' t i t0 f cv heff
            (fun hc => hne hc.1.symm)]
          exact hgoal
        · intro h1
          by_cases ht : t = t0
          · have hii : i = (st.data t0).length := by
              rw [ht] at hlk
              exact Option.some.inj (hlk.symm.trans hLf0)
            have h1' : (stepRule sr st m).lookup t (generateRecordId sr t) =
                some i := by
              rw [ht, hcp.1, hii]
            have h2' : ((stepRule sr st m).data t).get? i =
                some (addStandardIdentifiers (setField (setField []
                  "_record_id" (Value.strV (generateRecordId sr t0))) f cv)
                  sr t0) := by
              rw [ht, hcp.2.2.1, hii]
              exact List.get?_concat_length _ _
            have hgoal := hmain.1 _ h1' h2'
            refine ⟨addStandardIdentifiers (setField (setField [] "_record_id"
              (Value.strV (generateRecordId sr t0))) f cv) sr t0, ?_⟩
            rw [passRules_cons]
            have hpos2 : (passRules sr ms' (stepRule sr st m)).lookup t0
                (generateRecordId sr t0) = some i := by
              rw [hLf0, hii]
            rw [writesForL_cons_pos sr _ m ms' t i t0 f cv heff
              ht.symm hpos2]
            have hfld : getField? (addStandardIdentifiers (setField (setField
                [] "_record_id" (Value.strV (generateRecordId sr t0))) f cv)
                sr t0) f = some cv := by
              rw [getField?_addStandardIdentifiers _ _ _ _ hf1 hf2,
                getField?_setField_self]
            have hcollapse : setFields (addStandardIdentifiers (setField
                (setField [] "_record_id"
                  (Value.strV (generateRecordId sr t0))) f cv) sr t0)
                ((f, cv) :: writesForL sr
                  (passRules sr ms' (stepRule sr st m)).lookup ms' t i) =
              setFields (addStandardIdentifiers (setField (setField []
                "_record_id" (Value.strV (generateRecordId sr t0))) f cv)
                sr t0)
                (writesForL sr
                  (passRules sr ms' (stepRule sr st m)).lookup ms' t i) := by
              show setFields (setField (addStandardIdentifiers (setField
                (setField [] "_record_id"
                  (Value.strV (generateRecordId sr t0))) f cv) sr t0) f cv)
                (writesForL sr
                  (passRules sr ms' (stepRule sr st m)).lookup ms' t i) = _
              rw [setField_eq_self _ f cv hfld]
            rw [hcollapse]
            exact hgoal
          · have h1' : (stepRule sr st m).lookup t (generateRecordId sr t) =
                none := by
              rw [hcp.2.1 t _ (fun hc => ht hc.1)]
              exact h1
            obtain ⟨base, hbase⟩ := hmain.2 h1'
            refine ⟨base, ?_⟩
            rw [passRules_cons]
            rw [writesForL_cons_neg sr _ m ms' t i t0 f cv heff
              (fun hc => ht hc.1.symm)]
            exact hbase

theorem pass_idem (sr : SourceRecord) (ms : List Rule) (st : EtlState)
    (hA : ∀ m ∈ ms, RuleAvoidsInjected m) (hV : Valid st) :
    passRules sr ms (passRules sr ms st) = passRules sr ms st := by
  have hKP : KeysPresent sr ms (passRules sr ms st) := keysPresent_pass sr ms st
  apply etlState_eq
  · funext t
    apply List.ext
    intro j
    cases ho : ((passRules sr ms st).data t).get? j with
    | none =>
      rw [List.get?_eq_none, pass_length sr ms (passRules sr ms st) hKP t]
      exact List.get?_eq_none.mp ho
    | some r1 =>
      rw [pass_data sr ms (passRules sr ms st) hKP t j r1 ho]
      by_cases hcond : (passRules sr ms st).lookup t (generateRecordId sr t) =
          some j
      · rw [if_pos hcond]
        have hshape := pass_shape sr ms st hA hV t j hcond
        cases hlk0 : st.lookup t (generateRecordId sr t) with
        | some i2 =>
          have hpers := lookup_persists_pass sr ms st t
            (generateRecordId sr t) i2 hlk0
          have hij : i2 = j := Option.some.inj (hpers.symm.trans hcond)
          rw [hij] at hlk0
          obtain ⟨r0, hr0⟩ := hV t (generateRecordId sr t) j hlk0
          have hA1 := hshape.1 r0 hlk0 hr0
          rw [ho] at hA1
          rw [Option.some.inj hA1, setFields_absorb]
        | none =>
          obtain ⟨base, hbase⟩ := hshape.2 hlk0
          rw [ho] at hbase
          rw [Option.some.inj hbase, setFields_absorb]
      · rw [if_neg hcond]
  · funext t k
    exact pass_lookup sr ms (passRules sr ms st) hKP t k

/-- C3, counterexample.  Merging is not idempotent: a rule that targets
`person_id` creates a record whose mapped write is then overwritten by the
unconditional identifier injection of `_add_standard_identifiers`
(`person_id := subject id "7"`), but a second application of the same
source record takes the update path, which re-applies the conversion
(`person_id := 5`) with no injection — so the state after two
applications differs from the state after one. -/
theorem c3_counterexample :
    (c3StateOnce.data "condition_occurrence").map
      (fun r => getField? r "person_id") = [some (Value.strV "7")] ∧
    (c3StateTwice.data "condition_occurrence").map
      (fun r => getField? r "person_id") = [some (Value.intV 5)] ∧
    c3StateTwice.data "condition_occurrence" ≠
      c3StateOnce.data "condition_occurrence" := by
  refine ⟨by decide, by decide, by decide⟩

/-- C3, amended.  Idempotence holds for every mapping whose rules avoid
the injected identifier fields `person_id` and `visit_occurrence_id`:
starting from any state whose lookup index points at existing positions,
applying the same source record twice through `_process_batch`'s
per-record body leaves exactly the state of applying it once — the second
application overwrites fields with identical values and creates no new
records. -/
theorem c3_amended (mapping : List Rule) (sourceTable : String)
    (st : EtlState) (srcRec : SourceRecord)
    (hA : ∀ m ∈ mapping, RuleAvoidsInjected m) (hV : Valid st) :
    processRecord mapping sourceTable
      (processRecord mapping sourceTable st srcRec) srcRec =
      processRecord mapping sourceTable st srcRec := by
  have hA2 : ∀ m ∈ getApplicableMappings mapping sourceTable
      (standardizeFieldNames srcRec), RuleAvoidsInjected m :=
    fun m hm => hA m (List.mem_filter.mp hm).1
  exact pass_idem (standardizeFieldNames srcRec)
    (getApplicableMappings mapping sourceTable (standardizeFieldNames srcRec))
    st hA2 hV

/-- C3, witness: the scenario's date rule avoids the injected identifier
fields, the fresh state is valid, and processing the scenario record
twice equals processing it once. -/
theorem c3_witness :
    (∀ m ∈ [c1Rule2], RuleAvoidsInjected m) ∧ Valid EtlState.empty ∧
    processRecord [c1Rule2] "Admission / Discharge"
      (processRecord [c1Rule2] "Admission / Discharge" EtlState.empty c1Rec)
      c1Rec =
      processRecord [c1Rule2] "Admission / Discharge" EtlState.empty c1Rec := by
  have hA : ∀ m ∈ [c1Rule2], RuleAvoidsInjected m := by
    intro m hm
    rw [List.mem_singleton] at hm
    subst hm
    exact ⟨by decide, by decide⟩
  have hV : Valid EtlState.empty := by
    intro t k j h
    exact Option.noConfusion (h : (none : Option Nat) = some j)
  exact ⟨hA, hV, c3_amended [c1Rule2] "Admission / Discharge"
    EtlState.empty c1Rec hA hV⟩

end IhidOmop
